import Mathlib

/-!
Verification of the vector path/geometry core of an OpenType font engine
(`bbox.ts`, `path.ts`, the glyph module, `glyphset.ts`).

Numbers are modelled as real numbers (`ℝ`); the JavaScript `NaN` sentinel used
by the bounding box (fields initialised to `NaN`) is modelled by `Option ℝ`
with `none` playing the role of `NaN`.  Strings are modelled as `List Char`.
-/

namespace OT

/-! ## bbox.ts -/

/-- `derive` from bbox.ts: evaluation of the cubic Bernstein form
`(1-t)^3 v0 + 3(1-t)^2 t v1 + 3(1-t) t^2 v2 + t^3 v3`. -/
def derive (v0 v1 v2 v3 t : ℝ) : ℝ :=
  (1 - t) ^ 3 * v0 + 3 * (1 - t) ^ 2 * t * v1 + 3 * (1 - t) * t ^ 2 * v2 + t ^ 3 * v3

/-- The quadratic Bernstein form, used to state what `addQuad` bounds. -/
def qderive (v0 v1 v2 t : ℝ) : ℝ :=
  (1 - t) ^ 2 * v0 + 2 * (1 - t) * t * v1 + t ^ 2 * v2

/-- The `BoundingBox` state: the four fields `x1/y1/x2/y2`, initialised to `NaN`
(modelled as `none`). -/
structure BBox where
  x1 : Option ℝ
  y1 : Option ℝ
  x2 : Option ℝ
  y2 : Option ℝ

/-- The `BoundingBox` constructor: all four fields are `NaN`. -/
def BBox.init : BBox := ⟨none, none, none, none⟩

/-- `isEmpty()`: `isNaN(x1) || isNaN(y1) || isNaN(x2) || isNaN(y2)`. -/
def BBox.isEmpty (b : BBox) : Bool :=
  b.x1.isNone || b.y1.isNone || b.x2.isNone || b.y2.isNone

/-- One axis of `addPoint` when a number is supplied for that axis: first
`if (isNaN lo || isNaN hi) then lo := v; hi := v`, then `if (v < lo) lo := v`,
then `if (v > hi) hi := v`.  After the first conditional both fields hold
numbers, so the comparisons are on numbers. -/
noncomputable def addAxis (lo hi : Option ℝ) (v : ℝ) : Option ℝ × Option ℝ :=
  let l0 : ℝ := if lo.isNone || hi.isNone then v else lo.getD v
  let h0 : ℝ := if lo.isNone || hi.isNone then v else hi.getD v
  let l1 : ℝ := if v < l0 then v else l0
  let h1 : ℝ := if v > h0 then v else h0
  (some l1, some h1)

/-- `addPoint(x, y)`: each axis is updated only when a number is supplied
(`typeof x === 'number'`); a `none` argument models `null`/omitted. -/
noncomputable def BBox.addPoint (b : BBox) (x y : Option ℝ) : BBox :=
  let bx : BBox := match x with
    | some v => let p := addAxis b.x1 b.x2 v; { b with x1 := p.1, x2 := p.2 }
    | none => b
  match y with
    | some v => let p := addAxis bx.y1 bx.y2 v; { bx with y1 := p.1, y2 := p.2 }
    | none => bx

/-- `addX(x)` = `addPoint(x, null)`. -/
noncomputable def BBox.addX (b : BBox) (v : ℝ) : BBox := b.addPoint (some v) none

/-- `addY(y)` = `addPoint(null, y)`. -/
noncomputable def BBox.addY (b : BBox) (v : ℝ) : BBox := b.addPoint none (some v)

/-- One pass of the per-axis extremum search inside `addBezier` (the loop body
is identical for both loop iterations and for both axes; `add` is `addX` for
the x loops and `addY` for the y loops).  `v0 v1 v2 v3` are the four control
coordinates of the axis. -/
noncomputable def bezAxis (add : BBox → ℝ → BBox) (b : BBox) (v0 v1 v2 v3 : ℝ) : BBox :=
  let bq : ℝ := 6 * v0 - 12 * v1 + 6 * v2
  let a : ℝ := -3 * v0 + 9 * v1 - 9 * v2 + 3 * v3
  let c : ℝ := 3 * v1 - 3 * v0
  if a = 0 then
    if bq = 0 then b
    else
      let t : ℝ := -c / bq
      if 0 < t ∧ t < 1 then add b (derive v0 v1 v2 v3 t) else b
  else
    let b2ac : ℝ := bq ^ 2 - 4 * a * c
    if b2ac < 0 then b
    else
      let t1 : ℝ := (-bq + Real.sqrt b2ac) / (2 * a)
      let b1 : BBox := if 0 < t1 ∧ t1 < 1 then add b (derive v0 v1 v2 v3 t1) else b
      let t2 : ℝ := (-bq - Real.sqrt b2ac) / (2 * a)
      if 0 < t2 ∧ t2 < 1 then add b1 (derive v0 v1 v2 v3 t2) else b1

/-- `addBezier(x0,y0,x1,y1,x2,y2,x,y)`: add both endpoints, then run the x
extremum loop (the source `for (let i = 0; i <= 1; i++)` executes the same body
twice) and then the y extremum loop (likewise twice). -/
noncomputable def BBox.addBezier (b : BBox)
    (x0 y0 xc1 yc1 xc2 yc2 x y : ℝ) : BBox :=
  let b1 := b.addPoint (some x0) (some y0)
  let b2 := b1.addPoint (some x) (some y)
  let b3 := bezAxis BBox.addX b2 x0 xc1 xc2 x
  let b4 := bezAxis BBox.addX b3 x0 xc1 xc2 x
  let b5 := bezAxis BBox.addY b4 y0 yc1 yc2 y
  bezAxis BBox.addY b5 y0 yc1 yc2 y

/-- `addQuad(x0,y0,x1,y1,x,y)`: degree-elevate the quadratic to a cubic and
delegate to `addBezier`. -/
noncomputable def BBox.addQuad (b : BBox) (x0 y0 xc1 yc1 x y : ℝ) : BBox :=
  let cp1x := x0 + 2 / 3 * (xc1 - x0)
  let cp1y := y0 + 2 / 3 * (yc1 - y0)
  let cp2x := cp1x + 1 / 3 * (x - x0)
  let cp2y := cp1y + 1 / 3 * (y - y0)
  b.addBezier x0 y0 cp1x cp1y cp2x cp2y x y

/-- `v` lies between the box's `x1` and `x2` fields (both of which hold numbers). -/
def memX (b : BBox) (v : ℝ) : Prop :=
  ∃ l h, b.x1 = some l ∧ b.x2 = some h ∧ l ≤ v ∧ v ≤ h

/-- `v` lies between the box's `y1` and `y2` fields (both of which hold numbers). -/
def memY (b : BBox) (v : ℝ) : Prop :=
  ∃ l h, b.y1 = some l ∧ b.y2 = some h ∧ l ≤ v ∧ v ≤ h

/-- One public mutating operation on a `BoundingBox`. -/
inductive BoxOp
  | point (x y : Option ℝ)
  | ax (v : ℝ)
  | ay (v : ℝ)
  | bez (x0 y0 xc1 yc1 xc2 yc2 x y : ℝ)
  | quad (x0 y0 xc1 yc1 x y : ℝ)

/-- Run one operation. -/
noncomputable def applyOp (b : BBox) : BoxOp → BBox
  | .point x y => b.addPoint x y
  | .ax v => b.addX v
  | .ay v => b.addY v
  | .bez x0 y0 xc1 yc1 xc2 yc2 x y => b.addBezier x0 y0 xc1 yc1 xc2 yc2 x y
  | .quad x0 y0 xc1 yc1 x y => b.addQuad x0 y0 xc1 yc1 x y

/-- Run a sequence of operations. -/
noncomputable def applyOps (b : BBox) (ops : List BoxOp) : BBox :=
  ops.foldl applyOp b

/-- Whether an operation supplies an x-coordinate to the box. -/
def suppliesX : BoxOp → Bool
  | .point x _ => x.isSome
  | .ax _ => true
  | .ay _ => false
  | .bez _ _ _ _ _ _ _ _ => true
  | .quad _ _ _ _ _ _ => true

/-- Whether an operation supplies a y-coordinate to the box. -/
def suppliesY : BoxOp → Bool
  | .point _ y => y.isSome
  | .ax _ => false
  | .ay _ => true
  | .bez _ _ _ _ _ _ _ _ => true
  | .quad _ _ _ _ _ _ => true

/-- Both x fields hold numbers. -/
def xSet (b : BBox) : Bool := b.x1.isSome && b.x2.isSome

/-- Both y fields hold numbers. -/
def ySet (b : BBox) : Bool := b.y1.isSome && b.y2.isSome

/-- The quadratic coefficient `a = -3v0 + 9v1 - 9v2 + 3v3` of the derivative
of the cubic Bernstein form, as computed in `addBezier`. -/
def quadA (v0 v1 v2 v3 : ℝ) : ℝ := -3 * v0 + 9 * v1 - 9 * v2 + 3 * v3

/-- The coefficient `b = 6v0 - 12v1 + 6v2`. -/
def quadB (v0 v1 v2 : ℝ) : ℝ := 6 * v0 - 12 * v1 + 6 * v2

/-- The coefficient `c = 3v1 - 3v0`. -/
def quadC (v0 v1 : ℝ) : ℝ := 3 * v1 - 3 * v0

/-- A parameter position whose Bernstein value the `addBezier` axis pass makes
available to the box: an endpoint, or an interior critical point of the axis
polynomial. -/
def isAvail (v0 v1 v2 v3 s : ℝ) : Prop :=
  s = 0 ∨ s = 1 ∨
    (0 < s ∧ s < 1 ∧ quadA v0 v1 v2 v3 * s ^ 2 + quadB v0 v1 v2 * s + quadC v0 v1 = 0)

/-! ## path.ts: commands and the Path object -/

open scoped Classical

/-- A `PathCommand`: tagged variant `M`/`L`/`Q`/`C`/`Z`. -/
inductive Cmd
  | m (x y : ℝ)
  | l (x y : ℝ)
  | q (x1 y1 x y : ℝ)
  | c (x1 y1 x2 y2 x y : ℝ)
  | z

/-- Reading `cmd.x` (the endpoint x): `undefined` for `Z`. -/
def Cmd.endX : Cmd → Option ℝ
  | .m x _ => some x
  | .l x _ => some x
  | .q _ _ x _ => some x
  | .c _ _ _ _ x _ => some x
  | .z => none

/-- Reading `cmd.y` (the endpoint y): `undefined` for `Z`. -/
def Cmd.endY : Cmd → Option ℝ
  | .m _ y => some y
  | .l _ y => some y
  | .q _ _ _ y => some y
  | .c _ _ _ _ _ y => some y
  | .z => none

/-- The `type` letter of a command. -/
def Cmd.typeChar : Cmd → Char
  | .m _ _ => 'M'
  | .l _ _ => 'L'
  | .q _ _ _ _ => 'Q'
  | .c _ _ _ _ _ _ => 'C'
  | .z => 'Z'

/-- The mutation `subpath[0].type = 'M'` in `optimizeCommands`.  The source only
performs it on a command guarded to be an `L`; on other variants it is the
identity here. -/
def Cmd.setTypeM : Cmd → Cmd
  | .l x y => .m x y
  | other => other

/-- An embedded raster/SVG image slot (`_image`): position, size, and an
opaque identifier for the pixel source. -/
structure ImgRec where
  imageId : ℕ
  x : ℝ
  y : ℝ
  width : ℝ
  height : ℝ

/-- The `Path` object: command list, `fill`, `stroke`, `strokeWidth`,
`unitsPerEm`, plus the optional `_layers` / `_image` slots.  `Option String`
models a possibly-`null` color.  Recursive because layers are paths. -/
inductive RPath
  | mk (commands : List Cmd) (fill : Option String) (stroke : Option String)
      (strokeWidth : ℝ) (unitsPerEm : Option ℝ)
      (layers : Option (List RPath)) (image : Option ImgRec)

/-- Field `commands`. -/
def RPath.commands : RPath → List Cmd
  | .mk cs _ _ _ _ _ _ => cs

/-- Field `fill`. -/
def RPath.fill : RPath → Option String
  | .mk _ f _ _ _ _ _ => f

/-- Field `stroke`. -/
def RPath.stroke : RPath → Option String
  | .mk _ _ s _ _ _ _ => s

/-- Field `strokeWidth`. -/
def RPath.strokeWidth : RPath → ℝ
  | .mk _ _ _ w _ _ _ => w

/-- Field `unitsPerEm`. -/
def RPath.unitsPerEm : RPath → Option ℝ
  | .mk _ _ _ _ u _ _ => u

/-- Field `_layers`. -/
def RPath.layers : RPath → Option (List RPath)
  | .mk _ _ _ _ _ ly _ => ly

/-- Field `_image`. -/
def RPath.image : RPath → Option ImgRec
  | .mk _ _ _ _ _ _ im => im

/-- `new Path()`: no commands, fill `'black'`, no stroke, strokeWidth 1. -/
def RPath.new : RPath := .mk [] (some "black") none 1 none none none

/-- Replace the command list (the only field `fromSVG` assigns). -/
def RPath.withCommands (p : RPath) (cs : List Cmd) : RPath :=
  match p with
  | .mk _ f s w u ly im => .mk cs f s w u ly im

/-- Append one command (`moveTo`/`lineTo`/`quadTo`/`curveTo`/`close` all
reduce to a push on `commands`). -/
def RPath.push (p : RPath) (c : Cmd) : RPath :=
  p.withCommands (p.commands ++ [c])

/-- `getBoundingBox()` loop body: tracks `(box, startX, startY, prevX, prevY)`. -/
noncomputable def pathBBoxStep (st : BBox × ℝ × ℝ × ℝ × ℝ) (cmd : Cmd) :
    BBox × ℝ × ℝ × ℝ × ℝ :=
  match st, cmd with
  | (box, _, _, _, _), .m x y => (box.addPoint (some x) (some y), x, y, x, y)
  | (box, sx, sy, _, _), .l x y => (box.addPoint (some x) (some y), sx, sy, x, y)
  | (box, sx, sy, px, py), .q x1 y1 x y => (box.addQuad px py x1 y1 x y, sx, sy, x, y)
  | (box, sx, sy, px, py), .c x1 y1 x2 y2 x y =>
      (box.addBezier px py x1 y1 x2 y2 x y, sx, sy, x, y)
  | (box, sx, sy, _, _), .z => (box, sx, sy, sx, sy)

/-- `Path.getBoundingBox()`: walk the commands; if the result is empty, seed it
with the origin. -/
noncomputable def bboxOfCommands (cmds : List Cmd) : BBox :=
  let r := cmds.foldl pathBBoxStep (BBox.init, 0, 0, 0, 0)
  if r.1.isEmpty then r.1.addPoint (some 0) (some 0) else r.1

/-- `Path.getBoundingBox()` on a path. -/
noncomputable def RPath.getBoundingBox (p : RPath) : BBox :=
  bboxOfCommands p.commands

/-! ## path.ts: decimal rounding and number formatting -/

/-- JavaScript `Math.round`: round half toward positive infinity. -/
noncomputable def jsRound (x : ℝ) : ℤ := ⌊x + 1 / 2⌋

/-- `roundDecimal(float, places)`.  The decimal-rounding cache is pure
memoization of exactly this map, so it is modelled by the function itself.
`places = none` models `undefined` (the function returns its input). -/
noncomputable def roundDecimal (v : ℝ) (places : Option ℕ) : ℝ :=
  match places with
  | none => v
  | some p =>
      let integerPart : ℤ := ⌊v⌋
      let decimalPart : ℝ := v - integerPart
      (integerPart : ℝ) + (jsRound (decimalPart * 10 ^ p) : ℝ) / 10 ^ p

/-- The character for a decimal digit (`0 ≤ n ≤ 9`). -/
def digitChr (n : ℕ) : Char := Char.ofNat (48 + n)

/-- Decimal digits of a natural number, least significant first. -/
def natDigitsLE (n : ℕ) : List Char :=
  if h : n < 10 then [digitChr n]
  else digitChr (n % 10) :: natDigitsLE (n / 10)
decreasing_by exact Nat.div_lt_self (by omega) (by omega)

/-- Decimal representation of a natural number, as JavaScript prints it. -/
def natToChars (n : ℕ) : List Char := (natDigitsLE n).reverse

/-- Decimal representation of an integer, as JavaScript prints it
(`'' + n` for an integer-valued number). -/
def intToChars (i : ℤ) : List Char :=
  if i < 0 then '-' :: natToChars i.natAbs else natToChars i.toNat

/-- Left-pad the decimal representation of `k` with zeros to `p` digits. -/
def padDigits (p : ℕ) (k : ℕ) : List Char :=
  let ds := natToChars k
  List.replicate (p - ds.length) '0' ++ ds

/-- `Number.prototype.toFixed(p)` for the values it is applied to in
`floatToString` (values that are exact multiples of `10^-p`, as produced by
`roundDecimal`, so no further rounding occurs). -/
noncomputable def toFixedChars (r : ℝ) (p : ℕ) : List Char :=
  let mval : ℤ := jsRound (r * 10 ^ p)
  if mval < 0 then
    '-' :: (natToChars (mval.natAbs / 10 ^ p) ++ '.' :: padDigits p (mval.natAbs % 10 ^ p))
  else
    natToChars (mval.toNat / 10 ^ p) ++ '.' :: padDigits p (mval.toNat % 10 ^ p)

/-- `floatToString(v)` from `toPathData`: print without a decimal point when
the rounded value is integral (`Math.round(v) === rounded`), otherwise
`rounded.toFixed(places)`.  (`toFixed(undefined)` behaves as `toFixed(0)`.) -/
noncomputable def floatToStringChars (v : ℝ) (places : Option ℕ) : List Char :=
  let rounded := roundDecimal v places
  if ((jsRound v : ℤ) : ℝ) = rounded then intToChars (jsRound v)
  else toFixedChars rounded (places.getD 0)

/-- `packValues` tail: a space separates a value from its predecessor only when
the value is nonnegative (`v >= 0 && i > 0`). -/
noncomputable def packValuesAux (places : Option ℕ) : ℕ → List ℝ → List Char
  | _, [] => []
  | i, v :: rest =>
      ((if 0 ≤ v ∧ 0 < i then [' '] else []) ++ floatToStringChars v places)
        ++ packValuesAux places (i + 1) rest

/-- `packValues(...args)`. -/
noncomputable def packValues (places : Option ℕ) (args : List ℝ) : List Char :=
  packValuesAux places 0 args

/-! ## path.ts: optimizeCommands -/

/-- State of the `optimizeCommands` loop: completed subpaths, the current
subpath, and the subpath start coordinates (`startX`/`startY`, which persist
across subpath boundaries until the next `M`). -/
structure OptSt where
  finished : List (List Cmd)
  current : List Cmd
  startX : ℝ
  startY : ℝ

/-- The guard of the `Z` rewrite in `optimizeCommands`: the subpath (before
the `Z` is pushed) starts `M, L, ...`, and its last command is an `L` landing
exactly on the `M` point. -/
def optZGuard (current : List Cmd) : Prop :=
  match current.head?, (current.drop 1).head?, current.getLast? with
  | some (.m fx fy), some (.l _ _), some (.l px py) => px = fx ∧ py = fy
  | _, _, _ => False

/-- The `optimizeCommands` loop.  Each step reads `firstCommand`,
`secondCommand`, `previousCommand` from the current subpath before pushing
`cmd`, and `nextCommand` from the remaining input.  The source's test
`(nextCommand as any).command === 'Z'` reads a `command` property that no
path command carries, so it is always false and only `!nextCommand` remains. -/
noncomputable def optLoop : OptSt → List Cmd → OptSt
  | st, [] => st
  | st, cmd :: rest =>
      let cur1 := st.current ++ [cmd]
      match cmd with
      | .m x y => optLoop { st with current := cur1, startX := x, startY := y } rest
      | .l x y =>
          if rest.head? = none then
            if ¬(|x - st.startX| > 1 ∨ |y - st.startY| > 1) then
              optLoop { st with current := st.current } rest
            else optLoop { st with current := cur1 } rest
          else if (∃ p, st.current.getLast? = some p ∧
              p.endX = some x ∧ p.endY = some y) then
            optLoop { st with current := st.current } rest
          else optLoop { st with current := cur1 } rest
      | .z =>
          let cur2 :=
            if optZGuard st.current then (cur1.drop 1).modifyHead Cmd.setTypeM
            else cur1
          if rest ≠ [] then
            optLoop { st with finished := st.finished ++ [cur2], current := [] } rest
          else optLoop { st with current := cur2 } rest
      | _ => optLoop { st with current := cur1 } rest

/-- `optimizeCommands(commands)`: run the loop and flatten the subpaths. -/
noncomputable def optimizeCommands (cmds : List Cmd) : List Cmd :=
  let st := optLoop ⟨[], [], 0, 0⟩ cmds
  (st.finished ++ [st.current]).flatten

/-! ## path.ts: serialization options and toPathData -/

/-- Resolved output options (the result of `createSVGOutputOptions`). -/
structure OutOpts where
  decimalPlaces : Option ℕ
  optimize : Bool
  flipY : Bool
  flipYBase : Option ℝ

/-- User-supplied output options: absent fields are `none`. -/
structure UserOutOpts where
  decimalPlaces : Option ℕ := none
  optimize : Option Bool := none
  flipY : Option Bool := none
  flipYBase : Option ℝ := none

/-- `createSVGOutputOptions` on an options object: defaults
`{decimalPlaces: 2, optimize: true, flipY: true, flipYBase: undefined}`
overridden by the supplied fields. -/
def resolveOutOpts (u : UserOutOpts) : OutOpts :=
  ⟨some (u.decimalPlaces.getD 2), u.optimize.getD true, u.flipY.getD true, u.flipYBase⟩

/-- `createSVGOutputOptions` on a plain number `n`: `{decimalPlaces: n,
flipY: false}`; the absent `optimize` field is falsy. -/
def outOptsOfNum (n : ℕ) : OutOpts := ⟨some n, false, false, none⟩

/-- The default output options (`toPathData()` with no argument). -/
def defaultOutOpts : OutOpts := resolveOutOpts {}

/-- Serialize one command: its letter followed by packed values, every
y-coordinate flipped to `flipYBase - y` when `flipY` is set. -/
noncomputable def serializeCmd (places : Option ℕ) (flipY : Bool) (fb : ℝ) : Cmd → List Char
  | .m x y => 'M' :: packValues places [x, if flipY then fb - y else y]
  | .l x y => 'L' :: packValues places [x, if flipY then fb - y else y]
  | .c x1 y1 x2 y2 x y => 'C' :: packValues places
      [x1, if flipY then fb - y1 else y1, x2, if flipY then fb - y2 else y2,
       x, if flipY then fb - y else y]
  | .q x1 y1 x y => 'Q' :: packValues places
      [x1, if flipY then fb - y1 else y1, x, if flipY then fb - y else y]
  | .z => ['Z']

/-- The tail of `toPathData` after the optimization step: resolve the default
`flipYBase` as `bbox.y1 + bbox.y2` of the serialized command set
(`tempPath.extend(commandsCopy); tempPath.getBoundingBox()`; the box is never
empty after `getBoundingBox`, so reading its fields as numbers is exact), then
emit every command. -/
noncomputable def serializeTail (cmds : List Cmd) (opt : OutOpts) : List Char :=
  let fb : ℝ :=
    if opt.flipY = true ∧ opt.flipYBase = none then
      let box := bboxOfCommands cmds
      box.y1.getD 0 + box.y2.getD 0
    else (opt.flipYBase).getD 0
  (cmds.map (serializeCmd opt.decimalPlaces opt.flipY fb)).flatten

/-- `toPathData(options)` on a resolved `OutOpts`. -/
noncomputable def toPathData (p : RPath) (opt : OutOpts) : List Char :=
  serializeTail (if opt.optimize then optimizeCommands p.commands else p.commands) opt

/-! ## path.ts: fromSVG -/

/-- Resolved parsing options (`createSVGParsingOptions`).  `flipYBaseGiven`
records the user-supplied `flipYBase` (`none` = absent): the post-parse
recomputation keys on the *user* value being `undefined`
(`options?.flipYBase === undefined`), while the resolved default is `0`. -/
structure ParseOpts where
  decimalPlaces : Option ℕ
  optimize : Bool
  flipY : Bool
  flipYBaseGiven : Option ℝ
  scale : ℝ
  x : ℝ
  y : ℝ

/-- Default parsing options: `{decimalPlaces: 2, optimize: true, flipY: true,
scale: 1, x: 0, y: 0}` and no user `flipYBase`. -/
def defaultParseOpts : ParseOpts := ⟨some 2, true, true, none, 1, 0, 0⟩

/-- `'0123456789'`. -/
def numberChars : List Char := ['0', '1', '2', '3', '4', '5', '6', '7', '8', '9']

/-- `'MmLlQqCcZzHhVv'`. -/
def supportedCmdChars : List Char :=
  ['M', 'm', 'L', 'l', 'Q', 'q', 'C', 'c', 'Z', 'z', 'H', 'h', 'V', 'v']

/-- `'-+'`. -/
def signChars : List Char := ['-', '+']

/-- `' ,\t\n\r\f\v'`. -/
def wsChars : List Char := [' ', ',', '\t', '\n', '\r', Char.ofNat 12, Char.ofNat 11]

/-- JavaScript `String.prototype.indexOf` for a single character:
the first position, or `-1` when absent. -/
def jsIndexOf (s : List Char) (c : Char) : ℤ :=
  match s.findIdx? (· = c) with
  | some i => (i : ℤ)
  | none => -1

/-- Tokenizer state: the pending command letter, the earlier number buffers in
order (`buffer[0..n-2]`), the buffer currently being filled
(`buffer[buffer.length-1]`), and the commands emitted so far. -/
structure TokSt where
  cmdType : Option Char
  doneBufs : List (List Char)
  curBuf : List Char
  commands : List Cmd

/-- The numeric value of a digit character. -/
def digitVal (c : Char) : ℕ := c.toNat - 48

/-- Value of a digit string, most significant first. -/
def digitsVal (s : List Char) : ℕ := s.foldl (fun acc c => acc * 10 + digitVal c) 0

/-- JavaScript `parseFloat` restricted to the buffers the tokenizer can
produce (digits, an optional leading sign, at most one `.`).  A buffer with no
digits at all (`"-"`, `"."`, `""`) gives `NaN` in JavaScript; that corner is
modelled as `0` and is never reached by the theorems below. -/
noncomputable def parseFloatChars (s : List Char) : ℝ :=
  let unsigned : List Char → ℝ := fun u =>
    let ip := u.takeWhile (· ≠ '.')
    let rest := u.dropWhile (· ≠ '.')
    (digitsVal ip : ℝ) +
      (match rest with
       | '.' :: fs => (digitsVal fs : ℝ) / 10 ^ fs.length
       | _ => 0)
  match s with
  | '-' :: u => -(unsigned u)
  | '+' :: u => unsigned u
  | _ => unsigned s

/-- `parseBuffer`: drop empty buffers, parse each as a float, and round it when
`decimalPlaces` is defined (`roundDecimal` with `none` is the identity). -/
noncomputable def parseBuffer (places : Option ℕ) (bufs : List (List Char)) : List ℝ :=
  (bufs.filter (· ≠ [])).map (fun s => roundDecimal (parseFloatChars s) places)

/-- The `M`/`L` repetition loop: two numbers per repetition; for `M` the first
repetition is a `moveTo` and later ones are `lineTo`s.  `parsedBuffer[i+1]`
past the end is `undefined` in JavaScript (a `NaN` coordinate); that corner is
modelled as `0`. -/
noncomputable def applyMLrec (relative : Bool) : Bool → ℝ → ℝ → List ℝ → List Cmd
  | _, _, _, [] => []
  | first, x, y, a :: rest =>
      let nx := (if relative then x else 0) + a
      let ny := (if relative then y else 0) + rest.headD 0
      (if first then Cmd.m nx ny else Cmd.l nx ny) ::
        applyMLrec relative false nx ny (rest.drop 1)
termination_by _ _ _ l => l.length
decreasing_by simp; omega

/-- The `V` repetition loop: one number per repetition, updating only y. -/
noncomputable def applyV (relative : Bool) : ℝ → ℝ → List ℝ → List Cmd
  | _, _, [] => []
  | x, y, a :: rest =>
      let ny := (if relative then y else 0) + a
      Cmd.l x ny :: applyV relative x ny rest

/-- The `H` repetition loop: one number per repetition, updating only x. -/
noncomputable def applyH (relative : Bool) : ℝ → ℝ → List ℝ → List Cmd
  | _, _, [] => []
  | x, y, a :: rest =>
      let nx := (if relative then x else 0) + a
      Cmd.l nx y :: applyH relative nx y rest

/-- The `C` repetition loop: six numbers per repetition (missing trailing
entries are the `undefined`-as-`NaN` corner, modelled as `0`). -/
noncomputable def applyC (relative : Bool) : ℝ → ℝ → List ℝ → List Cmd
  | _, _, [] => []
  | x, y, a :: rest =>
      let g : ℕ → ℝ := fun j => (a :: rest).getD j 0
      let rx : ℝ := if relative then x else 0
      let ry : ℝ := if relative then y else 0
      let nx := rx + g 4
      let ny := ry + g 5
      Cmd.c (rx + g 0) (ry + g 1) (rx + g 2) (ry + g 3) nx ny ::
        applyC relative nx ny (rest.drop 5)
termination_by _ _ l => l.length
decreasing_by simp; omega

/-- The `Q` repetition loop: four numbers per repetition. -/
noncomputable def applyQ (relative : Bool) : ℝ → ℝ → List ℝ → List Cmd
  | _, _, [] => []
  | x, y, a :: rest =>
      let g : ℕ → ℝ := fun j => (a :: rest).getD j 0
      let rx : ℝ := if relative then x else 0
      let ry : ℝ := if relative then y else 0
      let nx := rx + g 2
      let ny := ry + g 3
      Cmd.q (rx + g 0) (ry + g 1) nx ny :: applyQ relative nx ny (rest.drop 3)
termination_by _ _ l => l.length
decreasing_by simp; omega

/-- `applyCommand()`: parse the buffered numbers, reset the buffer, and emit
the commands of the pending letter.  The cursor starts from the last emitted
command's endpoint (`lastCmd.x || 0`, so `0` after a `Z` or when empty). -/
noncomputable def applyCommand (places : Option ℕ) (st : TokSt) : TokSt :=
  match st.cmdType with
  | none => st
  | some ty =>
      let commandType := ty.toUpper
      let relative := ty.toUpper ≠ ty
      let parsed := parseBuffer places (st.doneBufs ++ [st.curBuf])
      let st1 : TokSt := { st with doneBufs := [], curBuf := [] }
      if parsed = [] ∧ commandType ≠ 'Z' then st1
      else
        let x0 : ℝ := match st.commands.getLast? with
          | some cm => (cm.endX).getD 0
          | none => 0
        let y0 : ℝ := match st.commands.getLast? with
          | some cm => (cm.endY).getD 0
          | none => 0
        let newCmds : List Cmd :=
          if commandType = 'M' then applyMLrec relative true x0 y0 parsed
          else if commandType = 'L' then applyMLrec relative false x0 y0 parsed
          else if commandType = 'V' then applyV relative x0 y0 parsed
          else if commandType = 'H' then applyH relative x0 y0 parsed
          else if commandType = 'C' then applyC relative x0 y0 parsed
          else if commandType = 'Q' then applyQ relative x0 y0 parsed
          else if commandType = 'Z' then
            if st.commands = [] ∨ st.commands.getLast? ≠ some Cmd.z then [Cmd.z] else []
          else []
        { st1 with commands := st.commands ++ newCmds }

/-- One step of the character loop, for character `tok` at offset `i`.
Faults (`isUnexpected`) abort with the character and its offset. -/
noncomputable def tokStep (places : Option ℕ) (st : TokSt) (tok : Char) (i : ℕ) :
    Except (Char × ℕ) TokSt :=
  let lastBuffer := st.curBuf
  if tok ∈ numberChars then
    .ok { st with curBuf := st.curBuf ++ [tok] }
  else if tok ∈ signChars then
    let st := if st.cmdType = none ∧ st.commands = [] then
      { st with cmdType := some 'L' } else st
    if tok = '-' then
      if st.cmdType = none ∨ jsIndexOf lastBuffer '-' > 0 then .error (tok, i)
      else if lastBuffer ≠ [] then
        .ok { st with doneBufs := st.doneBufs ++ [st.curBuf], curBuf := ['-'] }
      else .ok { st with curBuf := ['-'] }
    else
      if st.cmdType = none ∨ lastBuffer ≠ [] then .error (tok, i)
      else .ok st
  else if tok ∈ supportedCmdChars then
    if st.cmdType ≠ none then
      let st2 := applyCommand places st
      .ok { st2 with cmdType := some tok }
    else .ok { st with cmdType := some tok }
  else if tok ∈ wsChars then
    .ok { st with doneBufs := st.doneBufs ++ [st.curBuf], curBuf := [] }
  else if tok = '.' then
    if st.cmdType = none ∨ tok ∈ lastBuffer then .error (tok, i)
    else .ok { st with curBuf := st.curBuf ++ [tok] }
  else .error (tok, i)

/-- The character loop from offset `i`. -/
noncomputable def tokLoop (places : Option ℕ) : TokSt → List Char → ℕ →
    Except (Char × ℕ) TokSt
  | st, [], _ => .ok st
  | st, cch :: rest, i =>
      match tokStep places st cch i with
      | .error e => .error e
      | .ok st2 => tokLoop places st2 rest (i + 1)

/-- Transform one parsed command at the end of `fromSVG`:
`x' = opt.x + x*scale`, `y' = opt.y + (flipY ? flipYBase - y : y)*scale`. -/
noncomputable def transformCmd (opt : ParseOpts) (fb : ℝ) : Cmd → Cmd
  | .m x y => .m (opt.x + x * opt.scale)
      (opt.y + (if opt.flipY then fb - y else y) * opt.scale)
  | .l x y => .l (opt.x + x * opt.scale)
      (opt.y + (if opt.flipY then fb - y else y) * opt.scale)
  | .q x1 y1 x y => .q (opt.x + x1 * opt.scale)
      (opt.y + (if opt.flipY then fb - y1 else y1) * opt.scale)
      (opt.x + x * opt.scale)
      (opt.y + (if opt.flipY then fb - y else y) * opt.scale)
  | .c x1 y1 x2 y2 x y => .c (opt.x + x1 * opt.scale)
      (opt.y + (if opt.flipY then fb - y1 else y1) * opt.scale)
      (opt.x + x2 * opt.scale)
      (opt.y + (if opt.flipY then fb - y2 else y2) * opt.scale)
      (opt.x + x * opt.scale)
      (opt.y + (if opt.flipY then fb - y else y) * opt.scale)
  | .z => .z

/-- `fromSVG(pathData, options)` on a string: tokenize, apply the pending
command at end of input, optionally optimize, resolve the default `flipYBase`
from the parsed bounding box, and transform every coordinate.  The result is
the final `this.commands`; a fault is the thrown `ParseError`. -/
noncomputable def fromSVGCommands (opt : ParseOpts) (s : List Char) :
    Except (Char × ℕ) (List Cmd) :=
  match tokLoop opt.decimalPlaces ⟨none, [], [], []⟩ s 0 with
  | .error e => .error e
  | .ok st =>
      let st2 := applyCommand opt.decimalPlaces st
      let cmds := if opt.optimize then optimizeCommands st2.commands else st2.commands
      let fb : ℝ :=
        if opt.flipY = true ∧ opt.flipYBaseGiven = none then
          let box := bboxOfCommands cmds
          box.y1.getD 0 + box.y2.getD 0
        else (opt.flipYBaseGiven).getD 0
      .ok (cmds.map (transformCmd opt fb))

/-- `Path.fromSVG` (static): parse into a fresh `Path`. -/
noncomputable def staticFromSVG (opt : ParseOpts) (s : List Char) :
    Except (Char × ℕ) RPath :=
  (fromSVGCommands opt s).map (RPath.new.withCommands)

/-! ## The Glyph module -/

/-- Replace the `unitsPerEm` field. -/
def RPath.withUnitsPerEm (p : RPath) (u : Option ℝ) : RPath :=
  match p with
  | .mk cs f s w _ ly im => .mk cs f s w u ly im

/-- Replace the `_layers` field. -/
def RPath.withLayers (p : RPath) (ls : List RPath) : RPath :=
  match p with
  | .mk cs f s w u _ im => .mk cs f s w u (some ls) im

/-- Replace the `_image` field. -/
def RPath.withImage (p : RPath) (im : ImgRec) : RPath :=
  match p with
  | .mk cs f s w u ly _ => .mk cs f s w u ly (some im)

/-- A falsy JavaScript number slot: `undefined` or `0`. -/
def jsFalsyNum (o : Option ℝ) : Prop := o = none ∨ o = some 0

/-- The deferred-path slot managed by `getPathDefinition`: either a
zero-argument producer or an already-built path. -/
inductive DeferredPath
  | producer (f : Unit → RPath)
  | value (p : RPath)

/-- The `path` option passed to the `Glyph` constructor: absent (falsy, so
`new Path()` is substituted), a ready path, or a producer. -/
inductive PathInit
  | noPath
  | ready (p : RPath)
  | producer (f : Unit → RPath)

/-- One entry of a TrueType point list. -/
structure ContourPoint where
  x : ℝ
  y : ℝ
  onCurve : Bool
  lastPointOfContour : Bool

/-- The `Glyph` object.  `unitsPerEm` is the untyped `(glyph as any).unitsPerEm`
slot read by the deferred-path getter glue (never set by the constructor). -/
structure Glyph where
  index : ℕ
  name : Option String
  unicode : Option ℕ
  unicodes : List ℕ
  xMin : Option ℝ
  yMin : Option ℝ
  xMax : Option ℝ
  yMax : Option ℝ
  advanceWidth : Option ℝ
  leftSideBearing : Option ℝ
  points : Option (List ContourPoint)
  unitsPerEm : Option ℝ
  pathState : DeferredPath

/-- Options accepted by the `Glyph` constructor; absent fields are `none`. -/
structure GlyphOptions where
  index : Option ℕ := none
  name : Option String := none
  unicode : Option ℕ := none
  unicodes : Option (List ℕ) := none
  xMin : Option ℝ := none
  yMin : Option ℝ := none
  xMax : Option ℝ := none
  yMax : Option ℝ := none
  advanceWidth : Option ℝ := none
  leftSideBearing : Option ℝ := none
  points : Option (List ContourPoint) := none
  path : PathInit := .noPath

/-- The `Glyph` constructor.  `.notdef` forces `unicode` to `undefined` and
`.null` forces it to `0`; any other glyph resolving to unicode `0` throws.
`options.name || null` turns the falsy empty string into `null`;
`options.index || 0` defaults the index to `0`. -/
def constructGlyph (opts : GlyphOptions) : Except String Glyph :=
  let name : Option String :=
    if opts.name = some ".notdef" then some ".notdef"
    else if opts.name = some ".null" then some ".null"
    else match opts.name with
      | some s => if s = "" then none else some s
      | none => none
  let unicode : Option ℕ :=
    if opts.name = some ".notdef" then none
    else if opts.name = some ".null" then some 0
    else opts.unicode
  if unicode = some 0 ∧ name ≠ some ".null" then
    .error "The unicode value 0 is reserved for the glyph name .null and cannot be used by any other glyph."
  else
    .ok
      { index := opts.index.getD 0
        name := name
        unicode := unicode
        unicodes := opts.unicodes.getD
          (match unicode with | some u => [u] | none => [])
        xMin := opts.xMin
        yMin := opts.yMin
        xMax := opts.xMax
        yMax := opts.yMax
        advanceWidth := opts.advanceWidth
        leftSideBearing := opts.leftSideBearing
        points := opts.points
        unitsPerEm := none
        pathState :=
          match opts.path with
          | .noPath => .value RPath.new
          | .ready p => .value p
          | .producer f => .producer f }

/-- The `path` property getter from `getPathDefinition`: invoke the producer
if the slot still holds one, push the glyph's `unitsPerEm` onto the produced
path when the path has none (`!_path.unitsPerEm && glyph.unitsPerEm`), and
memoize.  Returns the path, the new glyph state, and how many producer
invocations this read performed. -/
noncomputable def readPath (g : Glyph) : RPath × Glyph × ℕ :=
  match g.pathState with
  | .value p => (p, g, 0)
  | .producer f =>
      let p := f ()
      let p2 := if jsFalsyNum p.unitsPerEm ∧ ¬jsFalsyNum g.unitsPerEm then
        p.withUnitsPerEm g.unitsPerEm else p
      (p2, { g with pathState := .value p2 }, 1)

/-- `n` consecutive reads of the `path` property; returns the final glyph
state and the total number of producer invocations. -/
noncomputable def readPathN : ℕ → Glyph → Glyph × ℕ
  | 0, g => (g, 0)
  | n + 1, g =>
      let r := readPath g
      let rr := readPathN n r.2.1
      (rr.1, r.2.2 + rr.2)

/-- The `path` property setter: overwrite the slot. -/
def Glyph.setPathSlot (g : Glyph) (s : DeferredPath) : Glyph :=
  { g with pathState := s }

/-- The value of `this.path` as seen by the glyph methods (reads are
memoized, so the value is independent of how often the property is read). -/
noncomputable def Glyph.pathVal (g : Glyph) : RPath := (readPath g).1

/-- `addUnicode(unicode)`: set the primary `unicode` when the list was empty,
then append. -/
def Glyph.addUnicode (g : Glyph) (u : ℕ) : Glyph :=
  let g1 := if g.unicodes = [] then { g with unicode := some u } else g
  { g1 with unicodes := g1.unicodes ++ [u] }

/-! ## glyphset.ts -/

/-- A stored glyph-set entry: a glyph or a zero-argument loader. -/
inductive GlyphEntry
  | ready (g : Glyph)
  | producer (f : Unit → Glyph)

/-- The owning font as seen by `GlyphSet.get`: the `_push` streaming hook
(which materializes the entry for an index), the unicode map, the name
sources, and the horizontal metrics table. -/
structure GSFont where
  unitsPerEm : ℝ
  pushHook : Option (ℕ → GlyphEntry)
  indexToUnicode : ℕ → Option (List ℕ)
  cffCharset : Option (ℕ → Option String)
  postNames : Option (ℕ → Option String)
  hmtxAdvanceWidth : ℕ → ℝ
  hmtxLeftSideBearing : ℕ → ℝ

/-- The `GlyphSet` state. -/
structure GlyphSetSt where
  font : GSFont
  glyphs : ℕ → Option GlyphEntry
  length : ℕ

/-- `GlyphSet.get(index)`: in streaming mode (a `_push` hook exists and the
entry is absent) materialize the entry, invoke it if it is a loader, then push
unicodes, name and metrics onto the glyph; otherwise invoke-and-store a stored
loader, or return the stored glyph.  Returns the glyph, the new state, and the
number of loader invocations performed. -/
noncomputable def gsGet (s : GlyphSetSt) (i : ℕ) : Option Glyph × GlyphSetSt × ℕ :=
  match s.font.pushHook, s.glyphs i with
  | some pf, none =>
      let entry := pf i
      let invoked : Glyph × ℕ :=
        match entry with
        | .producer f => (f (), 1)
        | .ready g => (g, 0)
      let g0 := invoked.1
      let g1 := match s.font.indexToUnicode i with
        | some us => us.foldl Glyph.addUnicode g0
        | none => g0
      let g2 := match s.font.cffCharset with
        | some charset => { g1 with name := charset i }
        | none =>
            match s.font.postNames with
            | some names => { g1 with name := names i }
            | none => g1
      let g3 := { g2 with
        advanceWidth := some (s.font.hmtxAdvanceWidth i)
        leftSideBearing := some (s.font.hmtxLeftSideBearing i) }
      (some g3,
        { s with glyphs := fun j => if j = i then some (.ready g3) else s.glyphs j },
        invoked.2)
  | _, some (.producer f) =>
      let g := f ()
      (some g,
        { s with glyphs := fun j => if j = i then some (.ready g) else s.glyphs j }, 1)
  | _, some (.ready g) => (some g, s, 0)
  | none, none => (none, s, 0)

/-- `GlyphSet.push(index, loader)`. -/
def gsPush (s : GlyphSetSt) (i : ℕ) (e : GlyphEntry) : GlyphSetSt :=
  { s with glyphs := fun j => if j = i then some e else s.glyphs j,
           length := s.length + 1 }

/-! ## Glyph.getPath -/

/-- Opaque hinted-point data produced by the hinting engine. -/
def HPoints := ℕ

/-- An entry of the font's `svg` image table. -/
structure SvgImage where
  imageId : ℕ
  imgWidth : ℝ
  imgHeight : ℝ
  leftSideBearing : ℝ
  baseline : ℝ

/-- Render options; absent fields are `none` (so that `Object.assign`
merging with `defaultRenderOptions` is expressible).  `variation` is an
opaque variation-instance selector handed to the variation engine. -/
structure RenderOpts where
  xScale : Option ℝ := none
  yScale : Option ℝ := none
  fill : Option String := none
  hinting : Option Bool := none
  drawSVG : Option Bool := none
  drawLayers : Option Bool := none
  usePalette : Option ℕ := none
  colorFormat : Option String := none
  variation : Option ℕ := none

/-- A COLR layer record: a child glyph and its palette index. -/
structure LayerRec where
  glyph : Glyph
  paletteIndex : ℕ

/-- The hinting engine collaborator (`font.hinting`). -/
structure HintEngine where
  exec : Glyph → ℝ → RenderOpts → Option HPoints
  getCommands : HPoints → List Cmd

/-- The font collaborator as seen by `getPath`: default render options, the
optional variation and hinting engines, the layer and svg-image tables, and
the cpal helpers `getPaletteColor`/`formatColor` (code outside this core,
modelled as opaque functions supplied by the font). -/
structure FontC where
  defaultRenderOptions : RenderOpts
  variation : Option (Glyph → Option ℕ → Glyph)
  hinting : Option HintEngine
  layersOf : ℕ → List LayerRec
  svgImages : ℕ → Option SvgImage
  paletteColor : ℕ → Option ℕ → String
  fmtColor : String → String → String

/-- `Object.assign` on one option field: the override wins when present. -/
def ovr (o b : Option α) : Option α :=
  match o with
  | some v => some v
  | none => b

/-- `Object.assign({}, font.defaultRenderOptions, options)`. -/
def mergeRender (base o : RenderOpts) : RenderOpts :=
  ⟨ovr o.xScale base.xScale, ovr o.yScale base.yScale, ovr o.fill base.fill,
   ovr o.hinting base.hinting, ovr o.drawSVG base.drawSVG,
   ovr o.drawLayers base.drawLayers, ovr o.usePalette base.usePalette,
   ovr o.colorFormat base.colorFormat, ovr o.variation base.variation⟩

/-- A truthy JavaScript string slot: present and not the empty string. -/
def jsTruthyStr (o : Option String) : Prop := ∃ s, o = some s ∧ s ≠ ""

/-- The command-transform loop at the end of `getPath`: `M`/`L`/`Q`/`C`
commands map their coordinates through `x + cx*xScale`, `y + (-cy)*yScale`;
a `Z` is emitted only when `p.stroke && p.strokeWidth` is truthy. -/
noncomputable def getPathCmd (x y xScale yScale : ℝ)
    (strokeOn : Prop) : Cmd → List Cmd
  | .m cx cy => [.m (x + cx * xScale) (y + -cy * yScale)]
  | .l cx cy => [.l (x + cx * xScale) (y + -cy * yScale)]
  | .q qx1 qy1 cx cy =>
      [.q (x + qx1 * xScale) (y + -qy1 * yScale) (x + cx * xScale) (y + -cy * yScale)]
  | .c cx1 cy1 cx2 cy2 cx cy =>
      [.c (x + cx1 * xScale) (y + -cy1 * yScale) (x + cx2 * xScale) (y + -cy2 * yScale)
          (x + cx * xScale) (y + -cy * yScale)]
  | .z => if strokeOn then [.z] else []

/-- The `unitsPerEm || 1000` resolution that `getPath` applies to the glyph's
path (`0` and `undefined` are falsy). -/
noncomputable def glyphUpm (g : Glyph) : ℝ :=
  match (g.pathVal).unitsPerEm with
  | some u => if u = 0 then 1000 else u
  | none => 1000

/-- `Glyph.getPath(x, y, fontSize, options, font)`.  The fuel argument bounds
the recursion into color layers (the source recurses through
`this.getPath.call(layer.glyph, ...)`; layer tables in fonts are acyclic, and
every theorem below stays in branches that do not consume fuel). -/
noncomputable def glyphGetPath :
    ℕ → Glyph → ℝ → ℝ → ℝ → RenderOpts → Option FontC → Except String RPath
  | fuel, g, x, y, fontSize, options, font =>
    let ro := match font with
      | some f => mergeRender f.defaultRenderOptions options
      | none => options
    let scale : ℝ := 1 / glyphUpm g * fontSize
    let useGlyph : Glyph := match font with
      | some f =>
          match f.variation with
          | some vt => vt g ro.variation
          | none => g
      | none => g
    let hcmds : Option (List Cmd) :=
      if ro.hinting.getD false = true then
        match font with
        | some f =>
            match f.hinting with
            | some he => (he.exec useGlyph fontSize ro).map he.getCommands
            | none => none
        | none => none
      else none
    let commands : List Cmd := match hcmds with
      | some cs => cs
      | none => useGlyph.pathVal.commands
    let xdev : ℝ := match hcmds with | some _ => (jsRound x : ℝ) | none => x
    let ydev : ℝ := match hcmds with | some _ => (jsRound y : ℝ) | none => y
    let xScale : ℝ := match hcmds with | some _ => 1 | none => ro.xScale.getD scale
    let yScale : ℝ := match hcmds with | some _ => 1 | none => ro.yScale.getD scale
    let plainBranch : Unit → Except String RPath := fun _ =>
      let fill := match ro.fill with
        | some s => if s = "" then g.pathVal.fill else some s
        | none => g.pathVal.fill
      let stroke := g.pathVal.stroke
      let sw := g.pathVal.strokeWidth * scale
      let outCmds :=
        (commands.map (getPathCmd xdev ydev xScale yScale
          (jsTruthyStr stroke ∧ sw ≠ 0))).flatten
      .ok (RPath.mk outCmds fill stroke sw none none none)
    let layersBranch : Unit → Except String RPath := fun _ =>
      if ro.drawLayers.getD false = true then
        match font with
        | none => .error "The font object is required to read the colr/cpal tables in order to get the layers."
        | some f =>
            let layers := f.layersOf g.index
            if layers ≠ [] then
              match fuel with
              | 0 => .error "layer recursion exceeded the model's depth bound"
              | fuel1 + 1 =>
                  (layers.mapM (fun layer =>
                    let color := f.paletteColor layer.paletteIndex ro.usePalette
                    let color2 := if color = "currentColor" then (ro.fill).getD "black"
                      else f.fmtColor color (ro.colorFormat.getD "rgba")
                    glyphGetPath fuel1 layer.glyph x y fontSize
                      { ro with fill := some color2 } font)).map
                    RPath.new.withLayers
            else plainBranch ()
      else plainBranch ()
    if ro.drawSVG.getD false = true then
      match font with
      | none => .error "The font object is required to read the svg table in order to get the image."
      | some f =>
          match f.svgImages g.index with
          | some img =>
              .ok (RPath.new.withLayers [RPath.new.withImage
                { imageId := img.imageId
                  x := x + img.leftSideBearing * scale
                  y := y - img.baseline * scale
                  width := img.imgWidth * scale
                  height := img.imgHeight * scale }])
          | none => layersBranch ()
    else layersBranch ()

/-! ## Concrete sample values used by witness theorems -/

/-- A concrete glyph named `A` with no unicodes and a resolved empty path. -/
def sampleGlyphA : Glyph :=
  { index := 0, name := some "A", unicode := none, unicodes := [],
    xMin := none, yMin := none, xMax := none, yMax := none,
    advanceWidth := none, leftSideBearing := none, points := none,
    unitsPerEm := none, pathState := .value RPath.new }

/-- A concrete font with no streaming hook and empty tables. -/
def sampleGSFont : GSFont :=
  { unitsPerEm := 1000, pushHook := none, indexToUnicode := fun _ => none,
    cffCharset := none, postNames := none,
    hmtxAdvanceWidth := fun _ => 0, hmtxLeftSideBearing := fun _ => 0 }

/-- A concrete glyph set holding one loader at index 0. -/
def sampleGS : GlyphSetSt :=
  { font := sampleGSFont,
    glyphs := fun j => if j = 0 then some (GlyphEntry.producer fun _ => sampleGlyphA)
      else none,
    length := 1 }

/-- A concrete glyph whose outline is `M(1,2), Z`, with the default fill,
no stroke, and strokeWidth 1. -/
def sampleGlyphZ : Glyph :=
  { sampleGlyphA with
    pathState := .value (RPath.mk [Cmd.m 1 2, Cmd.z] (some "black") none 1 none none none) }

/-! ## Spec-side definitions for the refinement claims -/

/-- The coordinate map that the specification describes for `getPath`
(claim C4): `x + cmd.x*xScale`, `y + (-cmd.y)*yScale` on every coordinate. -/
def specTransformCmd (x y xs ys : ℝ) : Cmd → Cmd
  | .m cx cy => .m (x + cx * xs) (y + -cy * ys)
  | .l cx cy => .l (x + cx * xs) (y + -cy * ys)
  | .q qx1 qy1 cx cy => .q (x + qx1 * xs) (y + -qy1 * ys) (x + cx * xs) (y + -cy * ys)
  | .c cx1 cy1 cx2 cy2 cx cy =>
      .c (x + cx1 * xs) (y + -cy1 * ys) (x + cx2 * xs) (y + -cy2 * ys)
        (x + cx * xs) (y + -cy * ys)
  | .z => .z

/-- Every character the SVG path tokenizer accepts in some state; any other
character is an immediate fault. -/
def svgAcceptedChars : List Char :=
  numberChars ++ signChars ++ supportedCmdChars ++ wsChars ++ ['.']

/-- All coordinates of a command are integers (the exactness class for the
round-trip theorem). -/
def intCmd : Cmd → Prop
  | .m x y => (∃ a : ℤ, x = a) ∧ (∃ b : ℤ, y = b)
  | .l x y => (∃ a : ℤ, x = a) ∧ (∃ b : ℤ, y = b)
  | .q x1 y1 x y => ((∃ a : ℤ, x1 = a) ∧ (∃ b : ℤ, y1 = b)) ∧
      ((∃ a : ℤ, x = a) ∧ (∃ b : ℤ, y = b))
  | .c x1 y1 x2 y2 x y => ((∃ a : ℤ, x1 = a) ∧ (∃ b : ℤ, y1 = b)) ∧
      ((∃ a : ℤ, x2 = a) ∧ (∃ b : ℤ, y2 = b)) ∧
      ((∃ a : ℤ, x = a) ∧ (∃ b : ℤ, y = b))
  | .z => True

/-- `M`/`L`/`Z` commands only (no curves). -/
def mlzCmd : Cmd → Prop
  | .m _ _ => True
  | .l _ _ => True
  | .z => True
  | _ => False

/-- No two consecutive `Z` commands (the parser deduplicates those). -/
def noConsecZ (cmds : List Cmd) : Prop :=
  List.Chain' (fun a b => ¬(a = Cmd.z ∧ b = Cmd.z)) cmds

/-- Mirror the y coordinates of a command around `fb` (the serializer's flip). -/
def flipCmd (fb : ℝ) : Cmd → Cmd
  | .m x y => .m x (fb - y)
  | .l x y => .l x (fb - y)
  | .q x1 y1 x y => .q x1 (fb - y1) x (fb - y)
  | .c x1 y1 x2 y2 x y => .c x1 (fb - y1) x2 (fb - y2) x (fb - y)
  | .z => .z

/-! ## toPathData on the object heap (for the frame property)

`optimizeCommands` mutates command objects in place (`subpath[0].type = 'M'`),
so `toPathData` protects the receiver by running it on a JSON deep copy.  To
state that faithfully, commands live in a heap of objects and a path's
`commands` array holds references into it. -/

/-- A path whose `commands` array holds heap references. -/
structure PathH where
  commandRefs : List ℕ
  fill : Option String
  stroke : Option String
  strokeWidth : ℝ
  unitsPerEm : Option ℝ

/-- `JSON.parse(JSON.stringify(this.commands))`: fresh cells holding copies of
the referenced command objects, appended to the heap. -/
def jsonCopy (heap : List Cmd) (refs : List ℕ) : List Cmd × List ℕ :=
  (heap ++ refs.map (fun r => heap.getD r Cmd.z), List.range' heap.length refs.length)

/-- `optimizeCommands` loop state, heap version. -/
structure OptStH where
  heap : List Cmd
  finished : List (List ℕ)
  current : List ℕ
  startX : ℝ
  startY : ℝ

/-- The `optimizeCommands` loop over references: identical control flow to
`optLoop`, with the single object mutation (`subpath[0].type = 'M'`) realised
as a heap write at the surviving head reference. -/
noncomputable def optLoopH : OptStH → List ℕ → OptStH
  | st, [] => st
  | st, r :: rest =>
      let cmd := st.heap.getD r Cmd.z
      let cur1 := st.current ++ [r]
      match cmd with
      | .m x y => optLoopH { st with current := cur1, startX := x, startY := y } rest
      | .l x y =>
          if rest.head? = none then
            if ¬(|x - st.startX| > 1 ∨ |y - st.startY| > 1) then
              optLoopH { st with current := st.current } rest
            else optLoopH { st with current := cur1 } rest
          else if (∃ p, (st.current.getLast?).map (fun pr => st.heap.getD pr Cmd.z) = some p ∧
              p.endX = some x ∧ p.endY = some y) then
            optLoopH { st with current := st.current } rest
          else optLoopH { st with current := cur1 } rest
      | .z =>
          if optZGuard (st.current.map (fun pr => st.heap.getD pr Cmd.z)) then
            let cur2 := cur1.drop 1
            let heap2 := match cur2.head? with
              | some wi => st.heap.set wi ((st.heap.getD wi Cmd.z).setTypeM)
              | none => st.heap
            if rest ≠ [] then
              let stz : OptStH := { st with heap := heap2, current := ([] : List ℕ) }
              optLoopH { stz with finished := st.finished ++ [cur2] } rest
            else optLoopH { st with heap := heap2, current := cur2 } rest
          else
            if rest ≠ [] then
              optLoopH { st with finished := st.finished ++ [cur1], current := [] } rest
            else optLoopH { st with current := cur1 } rest
      | _ => optLoopH { st with current := cur1 } rest

/-- `toPathData` over the heap: with optimization, deep-copy the receiver's
commands, optimize the copy in place, and serialize the surviving copies;
without optimization, serialize the receiver's commands directly.  Returns the
final heap and the emitted string; the receiver `p` itself is never assigned
to. -/
noncomputable def toPathDataH (heap : List Cmd) (p : PathH) (opt : OutOpts) :
    List Cmd × List Char :=
  if opt.optimize then
    let cp := jsonCopy heap p.commandRefs
    let st := optLoopH ⟨cp.1, [], [], 0, 0⟩ cp.2
    let refs2 := (st.finished ++ [st.current]).flatten
    (st.heap, serializeTail (refs2.map (fun r => st.heap.getD r Cmd.z)) opt)
  else
    (heap, serializeTail (p.commandRefs.map (fun r => heap.getD r Cmd.z)) opt)

theorem isEmpty_eq_false_iff (b : BBox) :
    b.isEmpty = false ↔ (xSet b = true ∧ ySet b = true) := by
  cases hx1 : b.x1 <;> cases hy1 : b.y1 <;> cases hx2 : b.x2 <;> cases hy2 : b.y2 <;>
    simp [BBox.isEmpty, xSet, ySet, hx1, hy1, hx2, hy2]

theorem addPoint_some_xSet (b : BBox) (v : ℝ) (y : Option ℝ) :
    xSet (b.addPoint (some v) y) = true := by
  cases y <;> simp [BBox.addPoint, addAxis, xSet]

theorem addPoint_some_ySet (b : BBox) (x : Option ℝ) (v : ℝ) :
    ySet (b.addPoint x (some v)) = true := by
  cases x <;> simp [BBox.addPoint, addAxis, ySet]

theorem addPoint_none_x (b : BBox) (y : Option ℝ) :
    (b.addPoint none y).x1 = b.x1 ∧ (b.addPoint none y).x2 = b.x2 := by
  cases y <;> simp [BBox.addPoint]

theorem addPoint_none_y (b : BBox) (x : Option ℝ) :
    (b.addPoint x none).y1 = b.y1 ∧ (b.addPoint x none).y2 = b.y2 := by
  cases x <;> simp [BBox.addPoint]

theorem addX_y_eq (b : BBox) (v : ℝ) :
    (b.addX v).y1 = b.y1 ∧ (b.addX v).y2 = b.y2 := by
  simp [BBox.addX, BBox.addPoint]

theorem addY_x_eq (b : BBox) (v : ℝ) :
    (b.addY v).x1 = b.x1 ∧ (b.addY v).x2 = b.x2 := by
  simp [BBox.addY, BBox.addPoint]

theorem bezAxis_addX_y_eq (b : BBox) (v0 v1 v2 v3 : ℝ) :
    (bezAxis BBox.addX b v0 v1 v2 v3).y1 = b.y1 ∧
    (bezAxis BBox.addX b v0 v1 v2 v3).y2 = b.y2 := by
  simp only [bezAxis]
  split_ifs <;>
    simp [addX_y_eq, (addX_y_eq _ _).1, (addX_y_eq _ _).2]

theorem bezAxis_addY_x_eq (b : BBox) (v0 v1 v2 v3 : ℝ) :
    (bezAxis BBox.addY b v0 v1 v2 v3).x1 = b.x1 ∧
    (bezAxis BBox.addY b v0 v1 v2 v3).x2 = b.x2 := by
  simp only [bezAxis]
  split_ifs <;>
    simp [addY_x_eq, (addY_x_eq _ _).1, (addY_x_eq _ _).2]

theorem bezAxis_addX_xSet (b : BBox) (v0 v1 v2 v3 : ℝ) (h : xSet b = true) :
    xSet (bezAxis BBox.addX b v0 v1 v2 v3) = true := by
  simp only [bezAxis]
  split_ifs <;>
    simp [BBox.addX, addPoint_some_xSet, h]

theorem bezAxis_addY_ySet (b : BBox) (v0 v1 v2 v3 : ℝ) (h : ySet b = true) :
    ySet (bezAxis BBox.addY b v0 v1 v2 v3) = true := by
  simp only [bezAxis]
  split_ifs <;>
    simp [BBox.addY, addPoint_some_ySet, h]

theorem xSet_of_addX (b : BBox) (v : ℝ) : xSet (b.addX v) = true :=
  addPoint_some_xSet b v none

theorem addBezier_xSet (b : BBox) (x0 y0 xc1 yc1 xc2 yc2 x y : ℝ) :
    xSet (b.addBezier x0 y0 xc1 yc1 xc2 yc2 x y) = true := by
  unfold BBox.addBezier
  have h1 : xSet (((b.addPoint (some x0) (some y0)).addPoint (some x) (some y))) = true :=
    addPoint_some_xSet _ _ _
  have h2 := bezAxis_addX_xSet _ x0 xc1 xc2 x h1
  have h3 := bezAxis_addX_xSet _ x0 xc1 xc2 x h2
  have e1 := bezAxis_addY_x_eq (bezAxis BBox.addX (bezAxis BBox.addX
    ((b.addPoint (some x0) (some y0)).addPoint (some x) (some y)) x0 xc1 xc2 x)
    x0 xc1 xc2 x) y0 yc1 yc2 y
  have e2 := bezAxis_addY_x_eq (bezAxis BBox.addY (bezAxis BBox.addX (bezAxis BBox.addX
    ((b.addPoint (some x0) (some y0)).addPoint (some x) (some y)) x0 xc1 xc2 x)
    x0 xc1 xc2 x) y0 yc1 yc2 y) y0 yc1 yc2 y
  simp only [xSet] at h3 ⊢
  rw [e2.1, e2.2, e1.1, e1.2]
  exact h3

theorem addBezier_ySet (b : BBox) (x0 y0 xc1 yc1 xc2 yc2 x y : ℝ) :
    ySet (b.addBezier x0 y0 xc1 yc1 xc2 yc2 x y) = true := by
  unfold BBox.addBezier
  have h1 : ySet (((b.addPoint (some x0) (some y0)).addPoint (some x) (some y))) = true :=
    addPoint_some_ySet _ _ _
  have e1 := bezAxis_addX_y_eq ((b.addPoint (some x0) (some y0)).addPoint (some x) (some y))
    x0 xc1 xc2 x
  have e2 := bezAxis_addX_y_eq (bezAxis BBox.addX
    ((b.addPoint (some x0) (some y0)).addPoint (some x) (some y)) x0 xc1 xc2 x) x0 xc1 xc2 x
  have h2 : ySet (bezAxis BBox.addX (bezAxis BBox.addX
      ((b.addPoint (some x0) (some y0)).addPoint (some x) (some y)) x0 xc1 xc2 x)
      x0 xc1 xc2 x) = true := by
    simp only [ySet] at h1 ⊢
    rw [e2.1, e2.2, e1.1, e1.2]
    exact h1
  exact bezAxis_addY_ySet _ y0 yc1 yc2 y (bezAxis_addY_ySet _ y0 yc1 yc2 y h2)

theorem xSet_applyOp (b : BBox) (op : BoxOp) :
    xSet (applyOp b op) = (xSet b || suppliesX op) := by
  cases op with
  | point x y =>
      cases x with
      | none => simp [applyOp, suppliesX, xSet, (addPoint_none_x b y).1, (addPoint_none_x b y).2]
      | some v => simp [applyOp, suppliesX, addPoint_some_xSet]
  | ax v => simp [applyOp, suppliesX, xSet_of_addX]
  | ay v => simp [applyOp, suppliesX, BBox.addY, xSet, (addPoint_none_x b _).1,
      (addPoint_none_x b _).2]
  | bez x0 y0 xc1 yc1 xc2 yc2 x y => simp [applyOp, suppliesX, addBezier_xSet]
  | quad x0 y0 xc1 yc1 x y => simp [applyOp, suppliesX, BBox.addQuad, addBezier_xSet]

theorem ySet_applyOp (b : BBox) (op : BoxOp) :
    ySet (applyOp b op) = (ySet b || suppliesY op) := by
  cases op with
  | point x y =>
      cases y with
      | none => simp [applyOp, suppliesY, ySet, (addPoint_none_y b x).1, (addPoint_none_y b x).2]
      | some v => simp [applyOp, suppliesY, addPoint_some_ySet]
  | ax v => simp [applyOp, suppliesY, BBox.addX, ySet, (addPoint_none_y b _).1,
      (addPoint_none_y b _).2]
  | ay v => simp [applyOp, suppliesY, BBox.addY, addPoint_some_ySet]
  | bez x0 y0 xc1 yc1 xc2 yc2 x y => simp [applyOp, suppliesY, addBezier_ySet]
  | quad x0 y0 xc1 yc1 x y => simp [applyOp, suppliesY, BBox.addQuad, addBezier_ySet]

theorem xSet_applyOps (b : BBox) (ops : List BoxOp) :
    xSet (applyOps b ops) = (xSet b || ops.any suppliesX) := by
  induction ops generalizing b with
  | nil => simp [applyOps]
  | cons op rest ih =>
      simp only [applyOps, List.foldl_cons, List.any_cons]
      rw [show List.foldl applyOp (applyOp b op) rest = applyOps (applyOp b op) rest from rfl,
        ih, xSet_applyOp, Bool.or_assoc]

theorem ySet_applyOps (b : BBox) (ops : List BoxOp) :
    ySet (applyOps b ops) = (ySet b || ops.any suppliesY) := by
  induction ops generalizing b with
  | nil => simp [applyOps]
  | cons op rest ih =>
      simp only [applyOps, List.foldl_cons, List.any_cons]
      rw [show List.foldl applyOp (applyOp b op) rest = applyOps (applyOp b op) rest from rfl,
        ih, ySet_applyOp, Bool.or_assoc]

/-- C5, counterexample: `addX` adds a point coordinate to a fresh box, yet the
box still reports `isEmpty() = true` afterwards, contradicting the claim that
the box becomes non-empty on the first point added by any add operation,
including `addX`. -/
theorem C5_counterexample : (BBox.init.addX 5).isEmpty = true := by
  simp [BBox.init, BBox.addX, BBox.addPoint, BBox.isEmpty]

/-- C5, amended: starting from a fresh box, `isEmpty()` is `false` iff the
operation history supplies at least one x-coordinate and at least one
y-coordinate (an `addPoint` with one axis omitted, or a bare `addX`/`addY`,
leaves the box empty until the other axis is also fed); and once `isEmpty()`
is `false`, no sequence of operations ever makes it `true` again. -/
theorem C5_bbox_empty_characterization :
    (∀ ops : List BoxOp,
      (applyOps BBox.init ops).isEmpty = false ↔
        (ops.any suppliesX = true ∧ ops.any suppliesY = true)) ∧
    (∀ (b : BBox) (ops : List BoxOp), b.isEmpty = false →
      (applyOps b ops).isEmpty = false) := by
  constructor
  · intro ops
    rw [isEmpty_eq_false_iff, xSet_applyOps, ySet_applyOps]
    simp [BBox.init, xSet, ySet]
  · intro b ops hb
    rw [isEmpty_eq_false_iff] at hb ⊢
    rw [xSet_applyOps, ySet_applyOps, hb.1, hb.2]
    simp

/-- C5, witness: the characterization applied at a concrete history. -/
theorem C5_bbox_empty_characterization_witness :
    (applyOps BBox.init [BoxOp.ax 3, BoxOp.ay 4]).isEmpty = false ∧
    (applyOps (applyOps BBox.init [BoxOp.ax 3, BoxOp.ay 4]) [BoxOp.ax 7]).isEmpty = false := by
  have h1 : (applyOps BBox.init [BoxOp.ax 3, BoxOp.ay 4]).isEmpty = false := by
    refine (C5_bbox_empty_characterization.1 [BoxOp.ax 3, BoxOp.ay 4]).2 ?_
    constructor <;> simp [suppliesX, suppliesY]
  exact ⟨h1, C5_bbox_empty_characterization.2 _ [BoxOp.ax 7] h1⟩

/-- C3: construction fails with the reservation error exactly when the
resolved unicode is `0` for a glyph not named `.null` — in terms of the
constructor's inputs: the name is neither `.null` (which succeeds with
unicode 0) nor `.notdef` (whose unicode is forced to `undefined`) and the
supplied unicode is `0`.  Every other combination does not raise the error. -/
theorem C3_construction_unicode_zero (opts : GlyphOptions) :
    (∃ e, constructGlyph opts = Except.error e) ↔
      (opts.unicode = some 0 ∧ opts.name ≠ some ".null" ∧ opts.name ≠ some ".notdef") := by
  unfold constructGlyph
  rcases hon : opts.name with _ | s
  · by_cases hu : opts.unicode = some 0 <;> simp [hon, hu]
  · by_cases hnd : s = ".notdef"
    · subst hnd; simp [hon]
    · by_cases hnl : s = ".null"
      · subst hnl; simp [hon]
      · by_cases hs : s = ""
        · subst hs
          by_cases hu : opts.unicode = some 0 <;> simp [hon, hu, hnd, hnl]
        · by_cases hu : opts.unicode = some 0 <;> simp [hon, hu, hnd, hnl, hs]

/-- C9: constructing with name `.notdef` always succeeds and forces
`unicode = undefined`; constructing with name `.null` always succeeds and
forces `unicode = 0`; with any other name, a successful construction keeps
the supplied unicode as-is. -/
theorem C9_constructor_name_coercion :
    (∀ opts : GlyphOptions, opts.name = some ".notdef" →
      ∃ g, constructGlyph opts = Except.ok g ∧ g.unicode = none) ∧
    (∀ opts : GlyphOptions, opts.name = some ".null" →
      ∃ g, constructGlyph opts = Except.ok g ∧ g.unicode = some 0) ∧
    (∀ (opts : GlyphOptions) (g : Glyph), opts.name ≠ some ".notdef" →
      opts.name ≠ some ".null" → constructGlyph opts = Except.ok g →
      g.unicode = opts.unicode) := by
  refine ⟨fun opts h => ?_, fun opts h => ?_, fun opts g h1 h2 hok => ?_⟩
  · unfold constructGlyph
    simp [h]
  · unfold constructGlyph
    simp [h]
  · unfold constructGlyph at hok
    rw [if_neg h1, if_neg h2, if_neg h1, if_neg h2] at hok
    simp only [] at hok
    split at hok
    · cases hok
    · injection hok with hok
      rw [← hok]

/-- C9, witness: the coercion clauses applied at concrete options. -/
theorem C9_constructor_name_coercion_witness :
    (∃ g, constructGlyph { name := some ".notdef", unicode := some 65 } = Except.ok g ∧
      g.unicode = none) ∧
    (∃ g, constructGlyph { name := some ".null", unicode := some 65 } = Except.ok g ∧
      g.unicode = some 0) := by
  constructor
  · exact C9_constructor_name_coercion.1 { name := some ".notdef", unicode := some 65 } rfl
  · exact C9_constructor_name_coercion.2.1 { name := some ".null", unicode := some 65 } rfl

/-- C8: `addUnicode(0)` never fails on any glyph (the constructor's
reservation of unicode `0` is not checked here): it appends `0` to
`unicodes`, and sets the primary `unicode` to `0` exactly when the list was
previously empty. -/
theorem C8_addUnicode_zero (g : Glyph) :
    (g.addUnicode 0).unicodes = g.unicodes ++ [0] ∧
    (g.unicodes = [] → (g.addUnicode 0).unicode = some 0) ∧
    (g.unicodes ≠ [] → (g.addUnicode 0).unicode = g.unicode) := by
  refine ⟨?_, fun h => ?_, fun h => ?_⟩
  · unfold Glyph.addUnicode
    split_ifs <;> rfl
  · unfold Glyph.addUnicode
    rw [if_pos h]
  · unfold Glyph.addUnicode
    rw [if_neg h]

/-- C8, witness: `addUnicode(0)` on a concrete glyph named `A` (not `.null`)
with an empty unicode list. -/
theorem C8_addUnicode_zero_witness :
    (Glyph.addUnicode sampleGlyphA 0).unicodes = [] ++ [0] ∧
    (Glyph.addUnicode sampleGlyphA 0).unicode = some 0 := by
  have h2 := (C8_addUnicode_zero sampleGlyphA).2.1 rfl
  have h1 := (C8_addUnicode_zero sampleGlyphA).1
  exact ⟨h1, h2⟩

theorem readPathN_value (n : ℕ) (g : Glyph) (p : RPath)
    (h : g.pathState = .value p) : readPathN n g = (g, 0) := by
  induction n with
  | zero => rfl
  | succ n ih => simp [readPathN, readPath, h, ih]

theorem readPath_state (g : Glyph) :
    ∃ p, ((readPath g).2.1).pathState = DeferredPath.value p ∧ (readPath g).1 = p := by
  rcases hps : g.pathState with f | p
  · simp [readPath, hps]
  · simp [readPath, hps]

/-- C2: deferred-path and glyph-set memoization.  (a) reading the `path`
property a second time performs no producer invocation and returns exactly
the first read's result from an unchanged slot; (b) over any number of reads
the producer is invoked at most once in total; (c) a second `GlyphSet.get(i)`
returns the same glyph as the first from an unchanged store with no loader
invocation; (d) a stored loader is invoked exactly once by the `get` that
materializes it. -/
theorem C2_memoization :
    (∀ g : Glyph, readPath (readPath g).2.1 = ((readPath g).1, (readPath g).2.1, 0)) ∧
    (∀ (n : ℕ) (g : Glyph), (readPathN n g).2 ≤ 1) ∧
    (∀ (s : GlyphSetSt) (i : ℕ),
      gsGet (gsGet s i).2.1 i = ((gsGet s i).1, (gsGet s i).2.1, 0)) ∧
    (∀ (s : GlyphSetSt) (i : ℕ) (f : Unit → Glyph),
      s.glyphs i = some (.producer f) → (gsGet s i).2.2 = 1) := by
  refine ⟨fun g => ?_, fun n g => ?_, fun s i => ?_, fun s i f h => ?_⟩
  · rcases hps : g.pathState with f | p
    · simp [readPath, hps]
    · simp [readPath, hps]
  · cases n with
    | zero => simp [readPathN]
    | succ n =>
        obtain ⟨p, hp, -⟩ := readPath_state g
        have h0 := readPathN_value n _ p hp
        simp only [readPathN, h0]
        rcases hps : g.pathState with f | pp <;> simp [readPath, hps]
  · rcases hph : s.font.pushHook with _ | pf
    · rcases hgi : s.glyphs i with _ | e
      · simp [gsGet, hph, hgi]
      · rcases e with g | f
        · simp [gsGet, hph, hgi]
        · simp [gsGet, hph, hgi]
    · rcases hgi : s.glyphs i with _ | e
      · simp [gsGet, hph, hgi]
      · rcases e with g | f
        · simp [gsGet, hph, hgi]
        · simp [gsGet, hph, hgi]
  · rcases hph : s.font.pushHook with _ | pf <;> simp [gsGet, hph, h]

/-- C2, witness: a concrete glyph set holding one loader at index 0: the
first `get` invokes the loader exactly once in total, and the second `get`
returns the identical glyph from an unchanged store without invoking it. -/
theorem C2_memoization_witness : (gsGet sampleGS 0).2.2 = 1 := by
  refine C2_memoization.2.2.2 sampleGS 0 (fun _ => sampleGlyphA) ?_
  simp [sampleGS]

theorem tokStep_bad (places : Option ℕ) (st : TokSt) (i : ℕ) (a : Char)
    (ha : a ∉ svgAcceptedChars) : tokStep places st a i = Except.error (a, i) := by
  have h1 : ¬a ∈ numberChars := fun h => ha (by simp [svgAcceptedChars, h])
  have h2 : ¬a ∈ signChars := fun h => ha (by simp [svgAcceptedChars, h])
  have h3 : ¬a ∈ supportedCmdChars := fun h => ha (by simp [svgAcceptedChars, h])
  have h4 : ¬a ∈ wsChars := fun h => ha (by simp [svgAcceptedChars, h])
  have h5 : ¬a = '.' := fun h => ha (by simp [svgAcceptedChars, h])
  simp only [tokStep, if_neg h1, if_neg h2, if_neg h3, if_neg h4, if_neg h5]

theorem tokLoop_error_of_bad (places : Option ℕ) :
    ∀ (s : List Char) (st : TokSt) (i : ℕ),
      (∃ cch ∈ s, cch ∉ svgAcceptedChars) →
      ∃ e, tokLoop places st s i = Except.error e := by
  intro s
  induction s with
  | nil =>
      rintro st i ⟨cch, hc, -⟩
      cases hc
  | cons a rest ih =>
      rintro st i ⟨cch, hc, hbad⟩
      by_cases ha : a ∈ svgAcceptedChars
      · have hcrest : cch ∈ rest := by
          rcases List.mem_cons.mp hc with rfl | h
          · exact absurd ha hbad
          · exact h
        cases hstep : tokStep places st a i with
        | error e => exact ⟨e, by simp [tokLoop, hstep]⟩
        | ok st2 =>
            obtain ⟨e, he⟩ := ih st2 (i + 1) ⟨cch, hcrest, hbad⟩
            exact ⟨e, by simp [tokLoop, hstep, he]⟩
      · exact ⟨(a, i), by simp [tokLoop, tokStep_bad places st i a ha]⟩

/-- C7: a character outside the accepted SVG path grammar makes `fromSVG`
throw a `ParseError`; concretely, parsing `"M0 0 L10 0 @ L10 10 Z"` fails
carrying the offending character `@` and its byte offset `11`. -/
theorem C7_parser_fault :
    (∀ (opt : ParseOpts) (s : List Char), (∃ cch ∈ s, cch ∉ svgAcceptedChars) →
      ∃ e, fromSVGCommands opt s = Except.error e) ∧
    fromSVGCommands defaultParseOpts ("M0 0 L10 0 @ L10 10 Z").toList =
      Except.error ('@', 11) := by
  constructor
  · intro opt s h
    obtain ⟨e, he⟩ := tokLoop_error_of_bad opt.decimalPlaces s ⟨none, [], [], []⟩ 0 h
    exact ⟨e, by simp [fromSVGCommands, he]⟩
  · have hs : ("M0 0 L10 0 @ L10 10 Z").toList =
        ['M', '0', ' ', '0', ' ', 'L', '1', '0', ' ', '0', ' ', '@', ' ',
         'L', '1', '0', ' ', '1', '0', ' ', 'Z'] := rfl
    rw [hs]
    have hloop : tokLoop (some 2) ⟨none, [], [], []⟩
        ['M', '0', ' ', '0', ' ', 'L', '1', '0', ' ', '0', ' ', '@', ' ',
         'L', '1', '0', ' ', '1', '0', ' ', 'Z'] 0 = Except.error ('@', 11) := by
      simp +decide [tokLoop, tokStep, applyCommand, jsIndexOf, numberChars,
        signChars, supportedCmdChars, wsChars]
    simp [fromSVGCommands, defaultParseOpts, hloop]

/-- C7, witness: the general fault clause applied at a concrete input. -/
theorem C7_parser_fault_witness :
    ∃ e, fromSVGCommands defaultParseOpts ['M', '@'] = Except.error e := by
  refine C7_parser_fault.1 defaultParseOpts ['M', '@'] ⟨'@', by simp, by decide⟩

theorem getPathCmd_filterMap (x y xs ys : ℝ) (so : Prop) (cmds : List Cmd) :
    (cmds.map (getPathCmd x y xs ys so)).flatten =
      cmds.filterMap (fun cmd =>
        if cmd.typeChar = 'Z' ∧ ¬so then none
        else some (specTransformCmd x y xs ys cmd)) := by
  induction cmds with
  | nil => rfl
  | cons a rest ih =>
      cases a with
      | z =>
          by_cases hso : so
          · have h2 : ¬(Cmd.z.typeChar = 'Z' ∧ ¬so) := fun h => h.2 hso
            simp only [List.map_cons, List.flatten_cons, List.filterMap_cons, getPathCmd,
              if_pos hso, if_neg h2, specTransformCmd, ih, List.singleton_append]
          · have h2 : Cmd.z.typeChar = 'Z' ∧ ¬so := ⟨rfl, hso⟩
            simp only [List.map_cons, List.flatten_cons, List.filterMap_cons, getPathCmd,
              if_neg hso, if_pos h2, ih, List.nil_append]
      | m cx cy => simp +decide [getPathCmd, specTransformCmd, Cmd.typeChar, ih]
      | l cx cy => simp +decide [getPathCmd, specTransformCmd, Cmd.typeChar, ih]
      | q a1 b1 cx cy => simp +decide [getPathCmd, specTransformCmd, Cmd.typeChar, ih]
      | c a1 b1 a2 b2 cx cy => simp +decide [getPathCmd, specTransformCmd, Cmd.typeChar, ih]

/-- C4, counterexample: with the default options and no font, a glyph whose
outline is `M(1,2), Z` resolves to a path with a single command — the `Z` is
dropped because the source path has no stroke (`cmd.type === 'Z' && p.stroke
&& p.strokeWidth` fails) — so `getPath` does *not* emit one command per
source command. -/
theorem C4_counterexample :
    ∃ p, glyphGetPath 0 sampleGlyphZ 0 0 72 {} none = Except.ok p ∧
      p.commands.length = 1 ∧ (sampleGlyphZ.pathVal).commands.length = 2 := by
  refine ⟨_, rfl, ?_, by simp [sampleGlyphZ, Glyph.pathVal, readPath, RPath.commands]⟩
  simp only [glyphGetPath]
  simp [sampleGlyphZ, Glyph.pathVal, readPath, RPath.commands, RPath.stroke,
    RPath.strokeWidth, RPath.fill, RPath.unitsPerEm, getPathCmd, jsTruthyStr]

/-- C4, amended: when no font is attached (hence no hinting points, variation,
image, or layers apply) and image/layer rendering is not requested, `getPath`
returns a path holding one command per source `M`/`L`/`Q`/`C` command with
every coordinate mapped through `x + cmd.x*xScale`, `y + (-cmd.y)*yScale`
(control points included, the scales defaulting to `fontSize/(unitsPerEm ||
1000)`); a source `Z` is kept only when the source path's stroke is set and
the scaled strokeWidth is nonzero.  Fill is copied from the source path unless
overridden by the caller, stroke is copied, and strokeWidth is scaled. -/
theorem C4_getPath_outline_transform (fuel : ℕ) (g : Glyph) (x y fontSize : ℝ)
    (options : RenderOpts)
    (hsvg : options.drawSVG.getD false = false)
    (hlay : options.drawLayers.getD false = false) :
    glyphGetPath fuel g x y fontSize options none = Except.ok (RPath.mk
      (g.pathVal.commands.filterMap (fun cmd =>
        if cmd.typeChar = 'Z' ∧
            ¬(jsTruthyStr g.pathVal.stroke ∧
              g.pathVal.strokeWidth * (fontSize / glyphUpm g) ≠ 0) then none
        else some (specTransformCmd x y
          (options.xScale.getD (fontSize / glyphUpm g))
          (options.yScale.getD (fontSize / glyphUpm g)) cmd)))
      (match options.fill with
        | some s => if s = "" then g.pathVal.fill else some s
        | none => g.pathVal.fill)
      g.pathVal.stroke
      (g.pathVal.strokeWidth * (fontSize / glyphUpm g))
      none none none) := by
  have hsc : (1 : ℝ) / glyphUpm g * fontSize = fontSize / glyphUpm g := by ring
  simp only [glyphGetPath, hsvg, hlay, Bool.false_eq_true, if_false, ite_self, hsc,
    getPathCmd_filterMap]
  congr!

/-- C4, witness: the outline transform applied to the concrete glyph
`sampleGlyphZ` at `(0, 0)` and font size 72 with default options. -/
theorem C4_getPath_outline_transform_witness :
    glyphGetPath 0 sampleGlyphZ 0 0 72 {} none = Except.ok (RPath.mk
      (sampleGlyphZ.pathVal.commands.filterMap (fun cmd =>
        if cmd.typeChar = 'Z' ∧
            ¬(jsTruthyStr sampleGlyphZ.pathVal.stroke ∧
              sampleGlyphZ.pathVal.strokeWidth * (72 / glyphUpm sampleGlyphZ) ≠ 0) then none
        else some (specTransformCmd 0 0
          (({} : RenderOpts).xScale.getD (72 / glyphUpm sampleGlyphZ))
          (({} : RenderOpts).yScale.getD (72 / glyphUpm sampleGlyphZ)) cmd)))
      (match ({} : RenderOpts).fill with
        | some s => if s = "" then sampleGlyphZ.pathVal.fill else some s
        | none => sampleGlyphZ.pathVal.fill)
      sampleGlyphZ.pathVal.stroke
      (sampleGlyphZ.pathVal.strokeWidth * (72 / glyphUpm sampleGlyphZ))
      none none none) :=
  C4_getPath_outline_transform 0 sampleGlyphZ 0 0 72 {} rfl rfl

theorem optLoopH_frame (j : ℕ) :
    ∀ (refs : List ℕ) (st : OptStH),
      (∀ r ∈ st.current, r ≠ j) → (∀ r ∈ refs, r ≠ j) →
      (optLoopH st refs).heap.getD j Cmd.z = st.heap.getD j Cmd.z := by
  intro refs
  induction refs with
  | nil =>
      intro st _ _
      rfl
  | cons r rest ih =>
      intro st h1 h2
      have hrj : r ≠ j := h2 r (List.mem_cons_self r rest)
      have hrest : ∀ rr ∈ rest, rr ≠ j := fun rr hrr => h2 rr (List.mem_cons_of_mem r hrr)
      have hcur1 : ∀ rr ∈ st.current ++ [r], rr ≠ j := by
        intro rr hrr
        rcases List.mem_append.mp hrr with hmem | hmem
        · exact h1 rr hmem
        · rw [List.mem_singleton.mp hmem]; exact hrj
      have hnil : ∀ rr ∈ ([] : List ℕ), rr ≠ j := by
        intro rr hrr
        cases hrr
      have hdrop : ∀ rr ∈ (st.current ++ [r]).drop 1, rr ≠ j := fun rr hrr =>
        hcur1 rr (List.mem_of_mem_drop hrr)
      cases hcmd : st.heap.getD r Cmd.z with
      | m cx cy =>
          simp only [optLoopH, hcmd]
          exact ih _ hcur1 hrest
      | l cx cy =>
          simp only [optLoopH, hcmd]
          split_ifs <;> first
            | exact ih _ h1 hrest
            | exact ih _ hcur1 hrest
      | q a1 b1 cx cy =>
          simp only [optLoopH, hcmd]
          exact ih _ hcur1 hrest
      | c a1 b1 a2 b2 cx cy =>
          simp only [optLoopH, hcmd]
          exact ih _ hcur1 hrest
      | z =>
          simp only [optLoopH, hcmd]
          split_ifs with hg hr
          · rcases hh : ((st.current ++ [r]).drop 1).head? with _ | wi
            · simp only [hh]
              exact ih _ hnil hrest
            · simp only [hh]
              have hwj : wi ≠ j := hdrop wi (List.mem_of_mem_head? hh)
              have hset : (st.heap.set wi ((st.heap.getD wi Cmd.z).setTypeM)).getD j Cmd.z =
                  st.heap.getD j Cmd.z := by
                simp [List.getD_eq_getElem?_getD, List.getElem?_set_ne hwj]
              rw [ih _ hnil hrest]
              exact hset
          · rcases hh : ((st.current ++ [r]).drop 1).head? with _ | wi
            · simp only [hh]
              exact ih _ hdrop hrest
            · simp only [hh]
              have hwj : wi ≠ j := hdrop wi (List.mem_of_mem_head? hh)
              have hset : (st.heap.set wi ((st.heap.getD wi Cmd.z).setTypeM)).getD j Cmd.z =
                  st.heap.getD j Cmd.z := by
                simp [List.getD_eq_getElem?_getD, List.getElem?_set_ne hwj]
              rw [ih _ hdrop hrest]
              exact hset
          · exact ih _ hnil hrest
          · exact ih _ hcur1 hrest

/-- C10: `toPathData` does not mutate the receiver.  In the heap model (the
command objects live in a store and the path's `commands` array holds
references), running `toPathData` — including the optimization pass, which
rewrites command objects in place but only on the JSON deep copy — leaves the
command object at every one of the receiver's references unchanged, so the
receiver's observed command sequence is exactly as before; the `fill`,
`stroke`, `strokeWidth` and `unitsPerEm` fields are never assigned at all. -/
theorem C10_toPathData_frame (heap : List Cmd) (p : PathH) (opt : OutOpts)
    (hvalid : ∀ r ∈ p.commandRefs, r < heap.length) :
    p.commandRefs.map (fun r => (toPathDataH heap p opt).1.getD r Cmd.z) =
      p.commandRefs.map (fun r => heap.getD r Cmd.z) := by
  apply List.map_congr_left
  intro r hr
  by_cases hopt : opt.optimize = true
  · have hrange : ∀ rr ∈ List.range' heap.length p.commandRefs.length, rr ≠ r := by
      intro rr hrr
      have := (List.mem_range'_1.mp hrr).1
      have hlt := hvalid r hr
      omega
    have hnil : ∀ rr ∈ ([] : List ℕ), rr ≠ r := by
      intro rr hrr
      cases hrr
    have hfr := optLoopH_frame r
      (List.range' heap.length p.commandRefs.length)
      ⟨heap ++ p.commandRefs.map (fun rr => heap.getD rr Cmd.z), [], [], 0, 0⟩ hnil hrange
    simp only [toPathDataH, hopt, if_true, jsonCopy]
    rw [hfr]
    exact List.getD_append _ _ _ _ (hvalid r hr)
  · simp only [toPathDataH, hopt]
    simp

theorem addAxis_self (lo hi : Option ℝ) (v : ℝ) :
    ∃ l h, addAxis lo hi v = (some l, some h) ∧ l ≤ v ∧ v ≤ h := by
  simp only [addAxis]
  split_ifs <;> exact ⟨_, _, rfl, by linarith, by linarith⟩

theorem addAxis_mono (lo hi : Option ℝ) (w l h : ℝ)
    (hlo : lo = some l) (hhi : hi = some h) :
    ∃ l2 h2, addAxis lo hi w = (some l2, some h2) ∧ l2 ≤ l ∧ h ≤ h2 := by
  subst hlo hhi
  simp only [addAxis, Option.isNone_some, Bool.or_self, Bool.false_eq_true, if_false,
    Option.getD_some]
  split_ifs <;> exact ⟨_, _, rfl, by linarith, by linarith⟩

theorem memX_addPoint_some (b : BBox) (v : ℝ) (y : Option ℝ) :
    memX (b.addPoint (some v) y) v := by
  obtain ⟨l, h, heq, hl, hh⟩ := addAxis_self b.x1 b.x2 v
  cases y <;> exact ⟨l, h, by simp [BBox.addPoint, heq], by simp [BBox.addPoint, heq], hl, hh⟩

theorem memY_addPoint_some (b : BBox) (x : Option ℝ) (v : ℝ) :
    memY (b.addPoint x (some v)) v := by
  cases x with
  | none =>
      obtain ⟨l, h, heq, hl, hh⟩ := addAxis_self b.y1 b.y2 v
      exact ⟨l, h, by simp [BBox.addPoint, heq], by simp [BBox.addPoint, heq], hl, hh⟩
  | some w =>
      obtain ⟨l, h, heq, hl, hh⟩ := addAxis_self b.y1 b.y2 v
      exact ⟨l, h, by simp [BBox.addPoint, heq], by simp [BBox.addPoint, heq], hl, hh⟩

theorem memX_mono_addPoint (b : BBox) (v : ℝ) (hm : memX b v) (x y : Option ℝ) :
    memX (b.addPoint x y) v := by
  obtain ⟨l, h, hx1, hx2, hl, hh⟩ := hm
  cases x with
  | none =>
      exact ⟨l, h, by rw [(addPoint_none_x b y).1, hx1], by rw [(addPoint_none_x b y).2, hx2],
        hl, hh⟩
  | some w =>
      obtain ⟨l2, h2, heq, hle, hge⟩ := addAxis_mono b.x1 b.x2 w l h hx1 hx2
      cases y <;>
        exact ⟨l2, h2, by simp [BBox.addPoint, heq], by simp [BBox.addPoint, heq],
          le_trans hle hl, le_trans hh hge⟩

theorem memY_mono_addPoint (b : BBox) (v : ℝ) (hm : memY b v) (x y : Option ℝ) :
    memY (b.addPoint x y) v := by
  obtain ⟨l, h, hy1, hy2, hl, hh⟩ := hm
  cases y with
  | none =>
      exact ⟨l, h, by rw [(addPoint_none_y b x).1, hy1], by rw [(addPoint_none_y b x).2, hy2],
        hl, hh⟩
  | some w =>
      obtain ⟨l2, h2, heq, hle, hge⟩ := addAxis_mono b.y1 b.y2 w l h hy1 hy2
      refine ⟨l2, h2, ?_, ?_, le_trans hle hl, le_trans hh hge⟩
      · cases x <;> simp [BBox.addPoint, heq]
      · cases x <;> simp [BBox.addPoint, heq]

theorem memX_addX_self (b : BBox) (v : ℝ) : memX (b.addX v) v :=
  memX_addPoint_some b v none

theorem memY_addY_self (b : BBox) (v : ℝ) : memY (b.addY v) v :=
  memY_addPoint_some b none v

theorem memX_mono_addX (b : BBox) (v w : ℝ) (hm : memX b v) : memX (b.addX w) v :=
  memX_mono_addPoint b v hm (some w) none

theorem memY_mono_addY (b : BBox) (v w : ℝ) (hm : memY b v) : memY (b.addY w) v :=
  memY_mono_addPoint b v hm none (some w)

theorem memX_eq_of_fields (b b2 : BBox) (v : ℝ) (h1 : b2.x1 = b.x1) (h2 : b2.x2 = b.x2) :
    memX b v ↔ memX b2 v := by
  unfold memX
  rw [h1, h2]

theorem memY_eq_of_fields (b b2 : BBox) (v : ℝ) (h1 : b2.y1 = b.y1) (h2 : b2.y2 = b.y2) :
    memY b v ↔ memY b2 v := by
  unfold memY
  rw [h1, h2]

theorem memX_mono_bezAxis_addX (b : BBox) (v0 v1 v2 v3 v : ℝ) (hm : memX b v) :
    memX (bezAxis BBox.addX b v0 v1 v2 v3) v := by
  simp only [bezAxis]
  split_ifs <;> first
    | exact hm
    | exact memX_mono_addX _ _ _ hm
    | exact memX_mono_addX _ _ _ (memX_mono_addX _ _ _ hm)

theorem memY_mono_bezAxis_addY (b : BBox) (v0 v1 v2 v3 v : ℝ) (hm : memY b v) :
    memY (bezAxis BBox.addY b v0 v1 v2 v3) v := by
  simp only [bezAxis]
  split_ifs <;> first
    | exact hm
    | exact memY_mono_addY _ _ _ hm
    | exact memY_mono_addY _ _ _ (memY_mono_addY _ _ _ hm)

theorem memX_bezAxis_addY (b : BBox) (v0 v1 v2 v3 v : ℝ) :
    memX (bezAxis BBox.addY b v0 v1 v2 v3) v ↔ memX b v :=
  (memX_eq_of_fields b _ v (bezAxis_addY_x_eq b v0 v1 v2 v3).1
    (bezAxis_addY_x_eq b v0 v1 v2 v3).2).symm

theorem memY_bezAxis_addX (b : BBox) (v0 v1 v2 v3 v : ℝ) :
    memY (bezAxis BBox.addX b v0 v1 v2 v3) v ↔ memY b v :=
  (memY_eq_of_fields b _ v (bezAxis_addX_y_eq b v0 v1 v2 v3).1
    (bezAxis_addX_y_eq b v0 v1 v2 v3).2).symm

theorem memX_between (b : BBox) (u w z : ℝ) (hu : memX b u) (hw : memX b w)
    (h1 : u ≤ z) (h2 : z ≤ w) : memX b z := by
  obtain ⟨l, h, hx1, hx2, hl, -⟩ := hu
  obtain ⟨l2, h2', hx1', hx2', -, hh⟩ := hw
  rw [hx1'] at hx1
  rw [hx2'] at hx2
  injection hx1 with e1
  injection hx2 with e2
  exact ⟨l2, h2', hx1', hx2', by linarith, by linarith⟩

theorem memY_between (b : BBox) (u w z : ℝ) (hu : memY b u) (hw : memY b w)
    (h1 : u ≤ z) (h2 : z ≤ w) : memY b z := by
  obtain ⟨l, h, hy1, hy2, hl, -⟩ := hu
  obtain ⟨l2, h2', hy1', hy2', -, hh⟩ := hw
  rw [hy1'] at hy1
  rw [hy2'] at hy2
  injection hy1 with e1
  injection hy2 with e2
  exact ⟨l2, h2', hy1', hy2', by linarith, by linarith⟩

theorem derive_hasDerivAt (v0 v1 v2 v3 t : ℝ) :
    HasDerivAt (derive v0 v1 v2 v3)
      (quadA v0 v1 v2 v3 * t ^ 2 + quadB v0 v1 v2 * t + quadC v0 v1) t := by
  have hfun : derive v0 v1 v2 v3 = fun s : ℝ =>
      (-v0 + 3 * v1 - 3 * v2 + v3) * s ^ 3 + (3 * v0 - 6 * v1 + 3 * v2) * s ^ 2 +
        ((-3 * v0 + 3 * v1) * s + v0) := by
    funext s
    unfold derive
    ring
  rw [hfun]
  have h3 := (hasDerivAt_pow 3 t).const_mul (-v0 + 3 * v1 - 3 * v2 + v3)
  have h2 := (hasDerivAt_pow 2 t).const_mul (3 * v0 - 6 * v1 + 3 * v2)
  have h1 := (hasDerivAt_id t).const_mul (-3 * v0 + 3 * v1)
  have h0 := hasDerivAt_const t v0
  have H := (h3.add h2).add (h1.add h0)
  convert H using 1
  simp [quadA, quadB, quadC]
  ring

theorem derive_continuous (v0 v1 v2 v3 : ℝ) : Continuous (derive v0 v1 v2 v3) := by
  unfold derive
  fun_prop

theorem derive_zero (v0 v1 v2 v3 : ℝ) : derive v0 v1 v2 v3 0 = v0 := by
  unfold derive
  ring

theorem derive_one (v0 v1 v2 v3 : ℝ) : derive v0 v1 v2 v3 1 = v3 := by
  unfold derive
  ring

theorem derive_const_of_zero (v0 v1 v2 v3 : ℝ)
    (ha : quadA v0 v1 v2 v3 = 0) (hb : quadB v0 v1 v2 = 0) (hc : quadC v0 v1 = 0)
    (t : ℝ) : derive v0 v1 v2 v3 t = v0 := by
  have h1 : v1 = v0 := by
    simp only [quadC] at hc
    linarith
  have h2 : v2 = v0 := by
    simp only [quadB] at hb
    rw [h1] at hb
    linarith
  have h3 : v3 = v0 := by
    simp only [quadA] at ha
    rw [h1, h2] at ha
    linarith
  rw [h1, h2, h3]
  unfold derive
  ring

theorem extremeOn_isAvail (v0 v1 v2 v3 u : ℝ) (hu : u ∈ Set.Icc (0 : ℝ) 1)
    (hext : IsMinOn (derive v0 v1 v2 v3) (Set.Icc 0 1) u ∨
            IsMaxOn (derive v0 v1 v2 v3) (Set.Icc 0 1) u) :
    isAvail v0 v1 v2 v3 u := by
  rcases eq_or_lt_of_le hu.1 with h0 | h0
  · exact Or.inl h0.symm
  rcases eq_or_lt_of_le hu.2 with h1 | h1
  · exact Or.inr (Or.inl h1)
  have hnh : Set.Icc (0 : ℝ) 1 ∈ nhds u := Icc_mem_nhds h0 h1
  have hder : deriv (derive v0 v1 v2 v3) u = 0 := by
    rcases hext with hmin | hmax
    · exact (hmin.isLocalMin hnh).deriv_eq_zero
    · exact (hmax.isLocalMax hnh).deriv_eq_zero
  have hval := (derive_hasDerivAt v0 v1 v2 v3 u).deriv
  exact Or.inr (Or.inr ⟨h0, h1, hval.symm.trans hder⟩)

theorem bezAxisX_root_mem (b : BBox) (v0 v1 v2 v3 s : ℝ)
    (hs0 : 0 < s) (hs1 : s < 1)
    (hroot : quadA v0 v1 v2 v3 * s ^ 2 + quadB v0 v1 v2 * s + quadC v0 v1 = 0)
    (hnz : ¬(quadA v0 v1 v2 v3 = 0 ∧ quadB v0 v1 v2 = 0)) :
    memX (bezAxis BBox.addX b v0 v1 v2 v3) (derive v0 v1 v2 v3 s) := by
  simp only [quadA, quadB, quadC] at hroot hnz
  simp only [bezAxis]
  by_cases ha : -3 * v0 + 9 * v1 - 9 * v2 + 3 * v3 = 0
  · rw [if_pos ha]
    have hb : ¬(6 * v0 - 12 * v1 + 6 * v2 = 0) := fun hb => hnz ⟨ha, hb⟩
    rw [if_neg hb]
    have hts : -(3 * v1 - 3 * v0) / (6 * v0 - 12 * v1 + 6 * v2) = s := by
      have hlin : (6 * v0 - 12 * v1 + 6 * v2) * s + (3 * v1 - 3 * v0) = 0 := by
        linear_combination hroot - s ^ 2 * ha
      rw [div_eq_iff hb]
      linarith
    rw [hts, if_pos ⟨hs0, hs1⟩]
    exact memX_addX_self _ _
  · rw [if_neg ha]
    have hss : (-3 * v0 + 9 * v1 - 9 * v2 + 3 * v3) * (s * s) +
        (6 * v0 - 12 * v1 + 6 * v2) * s + (3 * v1 - 3 * v0) = 0 := by
      linear_combination hroot
    have hd : discrim (-3 * v0 + 9 * v1 - 9 * v2 + 3 * v3) (6 * v0 - 12 * v1 + 6 * v2)
        (3 * v1 - 3 * v0) =
        (2 * (-3 * v0 + 9 * v1 - 9 * v2 + 3 * v3) * s + (6 * v0 - 12 * v1 + 6 * v2)) ^ 2 :=
      discrim_eq_sq_of_quadratic_eq_zero hss
    have hb2ac : (0 : ℝ) ≤ (6 * v0 - 12 * v1 + 6 * v2) ^ 2 -
        4 * (-3 * v0 + 9 * v1 - 9 * v2 + 3 * v3) * (3 * v1 - 3 * v0) := by
      have : discrim (-3 * v0 + 9 * v1 - 9 * v2 + 3 * v3) (6 * v0 - 12 * v1 + 6 * v2)
          (3 * v1 - 3 * v0) = (6 * v0 - 12 * v1 + 6 * v2) ^ 2 -
          4 * (-3 * v0 + 9 * v1 - 9 * v2 + 3 * v3) * (3 * v1 - 3 * v0) := by
        rw [discrim]
      rw [← this, hd]
      positivity
    rw [if_neg (not_lt.mpr hb2ac)]
    have hsqrt : discrim (-3 * v0 + 9 * v1 - 9 * v2 + 3 * v3) (6 * v0 - 12 * v1 + 6 * v2)
        (3 * v1 - 3 * v0) =
        Real.sqrt ((6 * v0 - 12 * v1 + 6 * v2) ^ 2 -
          4 * (-3 * v0 + 9 * v1 - 9 * v2 + 3 * v3) * (3 * v1 - 3 * v0)) *
        Real.sqrt ((6 * v0 - 12 * v1 + 6 * v2) ^ 2 -
          4 * (-3 * v0 + 9 * v1 - 9 * v2 + 3 * v3) * (3 * v1 - 3 * v0)) := by
      rw [Real.mul_self_sqrt hb2ac, discrim]
    have hroots := (quadratic_eq_zero_iff ha hsqrt s).mp hss
    rcases hroots with h | h
    · rw [← h]
      split_ifs <;> first
        | exact memX_addX_self _ _
        | exact memX_mono_addX _ _ _ (memX_addX_self _ _)
        | exact absurd (show 0 < s ∧ s < 1 from ⟨hs0, hs1⟩) (by assumption)
    · rw [← h]
      split_ifs <;> first
        | exact memX_addX_self _ _
        | exact memX_mono_addX _ _ _ (memX_addX_self _ _)
        | exact absurd (show 0 < s ∧ s < 1 from ⟨hs0, hs1⟩) (by assumption)

theorem bezAxisY_root_mem (b : BBox) (v0 v1 v2 v3 s : ℝ)
    (hs0 : 0 < s) (hs1 : s < 1)
    (hroot : quadA v0 v1 v2 v3 * s ^ 2 + quadB v0 v1 v2 * s + quadC v0 v1 = 0)
    (hnz : ¬(quadA v0 v1 v2 v3 = 0 ∧ quadB v0 v1 v2 = 0)) :
    memY (bezAxis BBox.addY b v0 v1 v2 v3) (derive v0 v1 v2 v3 s) := by
  simp only [quadA, quadB, quadC] at hroot hnz
  simp only [bezAxis]
  by_cases ha : -3 * v0 + 9 * v1 - 9 * v2 + 3 * v3 = 0
  · rw [if_pos ha]
    have hb : ¬(6 * v0 - 12 * v1 + 6 * v2 = 0) := fun hb => hnz ⟨ha, hb⟩
    rw [if_neg hb]
    have hts : -(3 * v1 - 3 * v0) / (6 * v0 - 12 * v1 + 6 * v2) = s := by
      have hlin : (6 * v0 - 12 * v1 + 6 * v2) * s + (3 * v1 - 3 * v0) = 0 := by
        linear_combination hroot - s ^ 2 * ha
      rw [div_eq_iff hb]
      linarith
    rw [hts, if_pos ⟨hs0, hs1⟩]
    exact memY_addY_self _ _
  · rw [if_neg ha]
    have hss : (-3 * v0 + 9 * v1 - 9 * v2 + 3 * v3) * (s * s) +
        (6 * v0 - 12 * v1 + 6 * v2) * s + (3 * v1 - 3 * v0) = 0 := by
      linear_combination hroot
    have hd : discrim (-3 * v0 + 9 * v1 - 9 * v2 + 3 * v3) (6 * v0 - 12 * v1 + 6 * v2)
        (3 * v1 - 3 * v0) =
        (2 * (-3 * v0 + 9 * v1 - 9 * v2 + 3 * v3) * s + (6 * v0 - 12 * v1 + 6 * v2)) ^ 2 :=
      discrim_eq_sq_of_quadratic_eq_zero hss
    have hb2ac : (0 : ℝ) ≤ (6 * v0 - 12 * v1 + 6 * v2) ^ 2 -
        4 * (-3 * v0 + 9 * v1 - 9 * v2 + 3 * v3) * (3 * v1 - 3 * v0) := by
      have : discrim (-3 * v0 + 9 * v1 - 9 * v2 + 3 * v3) (6 * v0 - 12 * v1 + 6 * v2)
          (3 * v1 - 3 * v0) = (6 * v0 - 12 * v1 + 6 * v2) ^ 2 -
          4 * (-3 * v0 + 9 * v1 - 9 * v2 + 3 * v3) * (3 * v1 - 3 * v0) := by
        rw [discrim]
      rw [← this, hd]
      positivity
    rw [if_neg (not_lt.mpr hb2ac)]
    have hsqrt : discrim (-3 * v0 + 9 * v1 - 9 * v2 + 3 * v3) (6 * v0 - 12 * v1 + 6 * v2)
        (3 * v1 - 3 * v0) =
        Real.sqrt ((6 * v0 - 12 * v1 + 6 * v2) ^ 2 -
          4 * (-3 * v0 + 9 * v1 - 9 * v2 + 3 * v3) * (3 * v1 - 3 * v0)) *
        Real.sqrt ((6 * v0 - 12 * v1 + 6 * v2) ^ 2 -
          4 * (-3 * v0 + 9 * v1 - 9 * v2 + 3 * v3) * (3 * v1 - 3 * v0)) := by
      rw [Real.mul_self_sqrt hb2ac, discrim]
    have hroots := (quadratic_eq_zero_iff ha hsqrt s).mp hss
    rcases hroots with h | h
    · rw [← h]
      split_ifs <;> first
        | exact memY_addY_self _ _
        | exact memY_mono_addY _ _ _ (memY_addY_self _ _)
        | exact absurd (show 0 < s ∧ s < 1 from ⟨hs0, hs1⟩) (by assumption)
    · rw [← h]
      split_ifs <;> first
        | exact memY_addY_self _ _
        | exact memY_mono_addY _ _ _ (memY_addY_self _ _)
        | exact absurd (show 0 < s ∧ s < 1 from ⟨hs0, hs1⟩) (by assumption)

theorem bezAxisX_avail_mem (b : BBox) (v0 v1 v2 v3 s : ℝ)
    (hav : isAvail v0 v1 v2 v3 s)
    (hm0 : memX b v0) (hm3 : memX b v3) :
    memX (bezAxis BBox.addX b v0 v1 v2 v3) (derive v0 v1 v2 v3 s) := by
  rcases hav with rfl | rfl | ⟨hs0, hs1, hroot⟩
  · rw [derive_zero]
    exact memX_mono_bezAxis_addX _ _ _ _ _ _ hm0
  · rw [derive_one]
    exact memX_mono_bezAxis_addX _ _ _ _ _ _ hm3
  · by_cases hnz : quadA v0 v1 v2 v3 = 0 ∧ quadB v0 v1 v2 = 0
    · have hc : quadC v0 v1 = 0 := by
        rw [hnz.1, hnz.2] at hroot
        simpa using hroot
      rw [derive_const_of_zero v0 v1 v2 v3 hnz.1 hnz.2 hc s]
      exact memX_mono_bezAxis_addX _ _ _ _ _ _ hm0
    · exact bezAxisX_root_mem b v0 v1 v2 v3 s hs0 hs1 hroot hnz

theorem bezAxisY_avail_mem (b : BBox) (v0 v1 v2 v3 s : ℝ)
    (hav : isAvail v0 v1 v2 v3 s)
    (hm0 : memY b v0) (hm3 : memY b v3) :
    memY (bezAxis BBox.addY b v0 v1 v2 v3) (derive v0 v1 v2 v3 s) := by
  rcases hav with rfl | rfl | ⟨hs0, hs1, hroot⟩
  · rw [derive_zero]
    exact memY_mono_bezAxis_addY _ _ _ _ _ _ hm0
  · rw [derive_one]
    exact memY_mono_bezAxis_addY _ _ _ _ _ _ hm3
  · by_cases hnz : quadA v0 v1 v2 v3 = 0 ∧ quadB v0 v1 v2 = 0
    · have hc : quadC v0 v1 = 0 := by
        rw [hnz.1, hnz.2] at hroot
        simpa using hroot
      rw [derive_const_of_zero v0 v1 v2 v3 hnz.1 hnz.2 hc s]
      exact memY_mono_bezAxis_addY _ _ _ _ _ _ hm0
    · exact bezAxisY_root_mem b v0 v1 v2 v3 s hs0 hs1 hroot hnz

theorem exists_min_max_avail (v0 v1 v2 v3 t : ℝ) (h0 : 0 ≤ t) (h1 : t ≤ 1) :
    ∃ u w, isAvail v0 v1 v2 v3 u ∧ isAvail v0 v1 v2 v3 w ∧
      derive v0 v1 v2 v3 u ≤ derive v0 v1 v2 v3 t ∧
      derive v0 v1 v2 v3 t ≤ derive v0 v1 v2 v3 w := by
  have hcont := (derive_continuous v0 v1 v2 v3).continuousOn (s := Set.Icc (0 : ℝ) 1)
  have hne : (Set.Icc (0 : ℝ) 1).Nonempty := Set.nonempty_Icc.mpr zero_le_one
  obtain ⟨u, humem, humin⟩ := isCompact_Icc.exists_isMinOn hne hcont
  obtain ⟨w, hwmem, hwmax⟩ := isCompact_Icc.exists_isMaxOn hne hcont
  refine ⟨u, w, extremeOn_isAvail v0 v1 v2 v3 u humem (Or.inl humin),
    extremeOn_isAvail v0 v1 v2 v3 w hwmem (Or.inr hwmax),
    humin (Set.mem_Icc.mpr ⟨h0, h1⟩), hwmax (Set.mem_Icc.mpr ⟨h0, h1⟩)⟩

theorem addBezier_memX (b : BBox) (x0 y0 xc1 yc1 xc2 yc2 x y t : ℝ)
    (h0 : 0 ≤ t) (h1 : t ≤ 1) :
    memX (b.addBezier x0 y0 xc1 yc1 xc2 yc2 x y) (derive x0 xc1 xc2 x t) := by
  obtain ⟨u, w, hau, haw, hle, hge⟩ := exists_min_max_avail x0 xc1 xc2 x t h0 h1
  have hm0 : memX ((b.addPoint (some x0) (some y0)).addPoint (some x) (some y)) x0 :=
    memX_mono_addPoint _ _ (memX_addPoint_some b x0 (some y0)) _ _
  have hm3 : memX ((b.addPoint (some x0) (some y0)).addPoint (some x) (some y)) x :=
    memX_addPoint_some _ x _
  have hmu := bezAxisX_avail_mem _ x0 xc1 xc2 x u hau hm0 hm3
  have hmw := bezAxisX_avail_mem _ x0 xc1 xc2 x w haw hm0 hm3
  have hmt := memX_between _ _ _ _ hmu hmw hle hge
  simp only [BBox.addBezier]
  refine (memX_bezAxis_addY _ y0 yc1 yc2 y _).mpr ((memX_bezAxis_addY _ y0 yc1 yc2 y _).mpr ?_)
  exact memX_mono_bezAxis_addX _ x0 xc1 xc2 x _ hmt

theorem addBezier_memY (b : BBox) (x0 y0 xc1 yc1 xc2 yc2 x y t : ℝ)
    (h0 : 0 ≤ t) (h1 : t ≤ 1) :
    memY (b.addBezier x0 y0 xc1 yc1 xc2 yc2 x y) (derive y0 yc1 yc2 y t) := by
  obtain ⟨u, w, hau, haw, hle, hge⟩ := exists_min_max_avail y0 yc1 yc2 y t h0 h1
  have hm0 : memY ((b.addPoint (some x0) (some y0)).addPoint (some x) (some y)) y0 :=
    memY_mono_addPoint _ _ (memY_addPoint_some b (some x0) y0) _ _
  have hm3 : memY ((b.addPoint (some x0) (some y0)).addPoint (some x) (some y)) y :=
    memY_addPoint_some _ _ y
  have hm0x : memY (bezAxis BBox.addX (bezAxis BBox.addX
      ((b.addPoint (some x0) (some y0)).addPoint (some x) (some y)) x0 xc1 xc2 x)
      x0 xc1 xc2 x) y0 :=
    (memY_bezAxis_addX _ _ _ _ _ _).mpr ((memY_bezAxis_addX _ _ _ _ _ _).mpr hm0)
  have hm3x : memY (bezAxis BBox.addX (bezAxis BBox.addX
      ((b.addPoint (some x0) (some y0)).addPoint (some x) (some y)) x0 xc1 xc2 x)
      x0 xc1 xc2 x) y :=
    (memY_bezAxis_addX _ _ _ _ _ _).mpr ((memY_bezAxis_addX _ _ _ _ _ _).mpr hm3)
  have hmu := bezAxisY_avail_mem _ y0 yc1 yc2 y u hau hm0x hm3x
  have hmw := bezAxisY_avail_mem _ y0 yc1 yc2 y w haw hm0x hm3x
  have hmt := memY_between _ _ _ _ hmu hmw hle hge
  simp only [BBox.addBezier]
  exact memY_mono_bezAxis_addY _ y0 yc1 yc2 y _ hmt

theorem qderive_eq_derive (v0 v1 v2 t : ℝ) :
    derive v0 (v0 + 2 / 3 * (v1 - v0)) ((v0 + 2 / 3 * (v1 - v0)) + 1 / 3 * (v2 - v0)) v2 t =
      qderive v0 v1 v2 t := by
  unfold derive qderive
  ring

/-- C1: after `addBezier(x0,y0,x1,y1,x2,y2,x,y)` on an arbitrary box, every
point of the cubic Bernstein curve for `t ∈ [0,1]` lies inside the rectangle
`[x1',x2'] × [y1',y2']` given by the resulting box fields; likewise after
`addQuad` for every point of the quadratic curve.  The box therefore includes
the entire curve, not merely its endpoints or control points. -/
theorem C1_curve_containment (b : BBox) (x0 y0 xc1 yc1 xc2 yc2 x y t : ℝ)
    (h0 : 0 ≤ t) (h1 : t ≤ 1) :
    (memX (b.addBezier x0 y0 xc1 yc1 xc2 yc2 x y) (derive x0 xc1 xc2 x t) ∧
     memY (b.addBezier x0 y0 xc1 yc1 xc2 yc2 x y) (derive y0 yc1 yc2 y t)) ∧
    (memX (b.addQuad x0 y0 xc1 yc1 x y) (qderive x0 xc1 x t) ∧
     memY (b.addQuad x0 y0 xc1 yc1 x y) (qderive y0 yc1 y t)) := by
  refine ⟨⟨addBezier_memX b x0 y0 xc1 yc1 xc2 yc2 x y t h0 h1,
    addBezier_memY b x0 y0 xc1 yc1 xc2 yc2 x y t h0 h1⟩, ?_, ?_⟩
  · have := addBezier_memX b x0 y0 (x0 + 2 / 3 * (xc1 - x0)) (y0 + 2 / 3 * (yc1 - y0))
      ((x0 + 2 / 3 * (xc1 - x0)) + 1 / 3 * (x - x0))
      ((y0 + 2 / 3 * (yc1 - y0)) + 1 / 3 * (y - y0)) x y t h0 h1
    rw [qderive_eq_derive] at this
    exact this
  · have := addBezier_memY b x0 y0 (x0 + 2 / 3 * (xc1 - x0)) (y0 + 2 / 3 * (yc1 - y0))
      ((x0 + 2 / 3 * (xc1 - x0)) + 1 / 3 * (x - x0))
      ((y0 + 2 / 3 * (yc1 - y0)) + 1 / 3 * (y - y0)) x y t h0 h1
    rw [qderive_eq_derive] at this
    exact this

/-- C1, witness: the containment at `t = 1` on a concrete cubic. -/
theorem C1_curve_containment_witness :
    (memX (BBox.init.addBezier 0 0 1 1 2 2 3 3) (derive 0 1 2 3 1) ∧
     memY (BBox.init.addBezier 0 0 1 1 2 2 3 3) (derive 0 1 2 3 1)) ∧
    (memX (BBox.init.addQuad 0 0 1 1 3 3) (qderive 0 1 3 1) ∧
     memY (BBox.init.addQuad 0 0 1 1 3 3) (qderive 0 1 3 1)) :=
  C1_curve_containment BBox.init 0 0 1 1 2 2 3 3 1 zero_le_one (le_refl 1)

/-! ### Integer arithmetic and decimal-string lemmas for the round trip -/

theorem jsRound_intCast (k : ℤ) : jsRound (k : ℝ) = k := by
  unfold jsRound
  rw [Int.floor_eq_iff]
  constructor <;> linarith

theorem roundDecimal_intCast (k : ℤ) (p : ℕ) : roundDecimal (k : ℝ) (some p) = k := by
  unfold roundDecimal
  simp only [Int.floor_intCast]
  have h0 : ((k : ℝ) - k) = 0 := by ring
  rw [h0]
  have : jsRound (0 * 10 ^ p) = 0 := by
    rw [zero_mul]
    exact_mod_cast jsRound_intCast 0
  rw [this]
  simp

theorem floatToStringChars_intCast (k : ℤ) (p : ℕ) :
    floatToStringChars (k : ℝ) (some p) = intToChars k := by
  unfold floatToStringChars
  rw [roundDecimal_intCast, jsRound_intCast, if_pos rfl]

theorem digitVal_digitChr (d : ℕ) (hd : d < 10) : digitVal (digitChr d) = d := by
  interval_cases d <;> rfl

theorem digitsVal_append_singleton (xs : List Char) (cch : Char) :
    digitsVal (xs ++ [cch]) = digitsVal xs * 10 + digitVal cch := by
  unfold digitsVal
  rw [List.foldl_append]
  rfl

theorem digitsVal_natToChars (n : ℕ) : digitsVal (natToChars n) = n := by
  unfold natToChars
  induction n using Nat.strong_induction_on with
  | _ n ih =>
      rw [natDigitsLE]
      split_ifs with h
      · simp only [List.reverse_cons, List.reverse_nil, List.nil_append, digitsVal,
          List.foldl_cons, List.foldl_nil, Nat.zero_mul, Nat.zero_add]
        exact digitVal_digitChr n h
      · rw [List.reverse_cons, digitsVal_append_singleton,
          ih (n / 10) (Nat.div_lt_self (by omega) (by omega)),
          digitVal_digitChr (n % 10) (Nat.mod_lt n (by omega))]
        omega

theorem natDigitsLE_digits (n : ℕ) : ∀ cch ∈ natDigitsLE n, cch ∈ numberChars := by
  induction n using Nat.strong_induction_on with
  | _ n ih =>
      rw [natDigitsLE]
      split_ifs with h
      · intro cch hc
        rw [List.mem_singleton] at hc
        subst hc
        interval_cases n <;> decide
      · intro cch hc
        rcases List.mem_cons.mp hc with rfl | hc
        · have hlt := Nat.mod_lt n (show 0 < 10 by omega)
          interval_cases hmod : n % 10 <;> decide
        · exact ih (n / 10) (Nat.div_lt_self (by omega) (by omega)) cch hc

theorem natToChars_digits (n : ℕ) : ∀ cch ∈ natToChars n, cch ∈ numberChars := by
  intro cch hc
  exact natDigitsLE_digits n cch (List.mem_reverse.mp hc)

theorem natToChars_ne_nil (n : ℕ) : natToChars n ≠ [] := by
  unfold natToChars
  rw [natDigitsLE]
  split_ifs <;> simp

theorem digit_ne_dot (cch : Char) (h : cch ∈ numberChars) : cch ≠ '.' := by
  fin_cases h <;> decide

theorem digit_ne_dash (cch : Char) (h : cch ∈ numberChars) : cch ≠ '-' := by
  fin_cases h <;> decide

theorem digit_ne_plus (cch : Char) (h : cch ∈ numberChars) : cch ≠ '+' := by
  fin_cases h <;> decide

theorem parseFloat_digits (s : List Char) (hne : s ≠ [])
    (hd : ∀ cch ∈ s, cch ∈ numberChars) :
    parseFloatChars s = digitsVal s := by
  have htake : s.takeWhile (· ≠ '.') = s := by
    apply List.takeWhile_eq_self_iff.mpr
    intro cch hc
    simpa using digit_ne_dot cch (hd cch hc)
  have hdrop : s.dropWhile (· ≠ '.') = [] := by
    apply List.dropWhile_eq_nil_iff.mpr
    intro cch hc
    simpa using digit_ne_dot cch (hd cch hc)
  cases s with
  | nil => exact absurd rfl hne
  | cons a rest =>
      have ha := hd a (List.mem_cons_self a rest)
      have h1 : a ≠ '-' := digit_ne_dash a ha
      have h2 : a ≠ '+' := digit_ne_plus a ha
      have hred : parseFloatChars (a :: rest) =
          (digitsVal ((a :: rest).takeWhile (· ≠ '.')) : ℝ) +
            (match (a :: rest).dropWhile (· ≠ '.') with
             | '.' :: fs => (digitsVal fs : ℝ) / 10 ^ fs.length
             | _ => 0) := by
        fin_cases ha <;> rfl
      rw [hred, htake, hdrop]
      simp

theorem intToChars_ne_nil (k : ℤ) : intToChars k ≠ [] := by
  unfold intToChars
  split_ifs
  · simp
  · exact natToChars_ne_nil _

theorem parseFloat_intToChars (k : ℤ) :
    parseFloatChars (intToChars k) = (k : ℝ) := by
  unfold intToChars
  split_ifs with h
  · cases hnc : natToChars k.natAbs with
    | nil => exact absurd hnc (natToChars_ne_nil _)
    | cons a rest =>
        have ha : a ∈ numberChars := natToChars_digits _ a (hnc ▸ List.mem_cons_self a rest)
        have hstep : parseFloatChars ('-' :: a :: rest) = -(parseFloatChars (a :: rest)) := by
          fin_cases ha <;> rfl
        rw [hstep,
          parseFloat_digits (a :: rest) (by simp)
            (fun cch hc => natToChars_digits _ cch (hnc ▸ hc)),
          show digitsVal (a :: rest) = k.natAbs from by
            rw [← hnc]; exact digitsVal_natToChars _]
        have habs : ((k.natAbs : ℕ) : ℝ) = -(k : ℝ) := by
          have h2 : ((k.natAbs : ℤ) : ℝ) = ((-k : ℤ) : ℝ) := by
            rw [Int.ofNat_natAbs_of_nonpos (le_of_lt h)]
          push_cast at h2
          rw [Int.cast_natAbs]
          push_cast
          exact h2
        rw [habs]
        ring
  · rw [parseFloat_digits _ (natToChars_ne_nil _) (natToChars_digits _),
      digitsVal_natToChars]
    have htn : (k.toNat : ℤ) = k := Int.toNat_of_nonneg (not_lt.mp h)
    exact_mod_cast congrArg (Int.cast : ℤ → ℝ) htn

theorem parseBuffer_pair (xk yk : ℤ) :
    parseBuffer (some 2) ([intToChars xk] ++ [intToChars yk]) = [(xk : ℝ), (yk : ℝ)] := by
  unfold parseBuffer
  rw [show ([intToChars xk] ++ [intToChars yk]).filter (· ≠ []) =
      [intToChars xk, intToChars yk] from by
    simp [List.filter, intToChars_ne_nil]]
  simp [parseFloat_intToChars, roundDecimal_intCast]

theorem tokLoop_append (places : Option ℕ) :
    ∀ (s1 : List Char) (s2 : List Char) (st : TokSt) (i : ℕ) (st1 : TokSt),
      tokLoop places st s1 i = Except.ok st1 →
      tokLoop places st (s1 ++ s2) i = tokLoop places st1 s2 (i + s1.length) := by
  intro s1
  induction s1 with
  | nil =>
      intro s2 st i st1 h
      injection h with h
      subst h
      simp [tokLoop]
  | cons a rest ih =>
      intro s2 st i st1 h
      rw [List.cons_append]
      rw [tokLoop] at h ⊢
      cases hstep : tokStep places st a i with
      | error e =>
          rw [hstep] at h
          exact absurd (show (Except.error e : Except (Char × ℕ) TokSt) = Except.ok st1 from h)
            (by simp)
      | ok st2 =>
          rw [hstep] at h
          replace h : tokLoop places st2 rest (i + 1) = Except.ok st1 := h
          show tokLoop places st2 (rest ++ s2) (i + 1) = _
          rw [ih s2 st2 (i + 1) st1 h]
          congr 1
          simp
          omega

theorem tok_digits (places : Option ℕ) :
    ∀ (ds : List Char) (st : TokSt) (i : ℕ), (∀ cch ∈ ds, cch ∈ numberChars) →
      tokLoop places st ds i = Except.ok { st with curBuf := st.curBuf ++ ds } := by
  intro ds
  induction ds with
  | nil =>
      intro st i _
      simp [tokLoop]
  | cons a rest ih =>
      intro st i hd
      have ha : a ∈ numberChars := hd a (List.mem_cons_self a rest)
      rw [tokLoop]
      rw [show tokStep places st a i = Except.ok { st with curBuf := st.curBuf ++ [a] } from by
        unfold tokStep
        rw [if_pos ha]]
      simp only []
      rw [ih _ (i + 1) (fun cch hc => hd cch (List.mem_cons_of_mem a hc))]
      simp

theorem tok_int_fresh (st : TokSt) (i : ℕ) (k : ℤ)
    (hcmd : st.cmdType ≠ none) (hbuf : st.curBuf = []) :
    tokLoop (some 2) st (intToChars k) i =
      Except.ok { st with curBuf := intToChars k } := by
  unfold intToChars
  split_ifs with hk
  · rw [tokLoop]
    rw [show tokStep (some 2) st '-' i = Except.ok { st with curBuf := ['-'] } from by
      unfold tokStep
      rw [if_neg (show ¬('-' ∈ numberChars) from by decide)]
      rw [if_pos (show '-' ∈ signChars from by decide)]
      rw [if_neg (show ¬(st.cmdType = none ∧ st.commands = []) from fun hand => hcmd hand.1)]
      rw [if_pos (show ('-' : Char) = '-' from rfl)]
      rw [if_neg (show ¬(st.cmdType = none ∨ jsIndexOf st.curBuf '-' > 0) from by
        rintro (hc | hidx)
        · exact hcmd hc
        · rw [hbuf] at hidx
          simp [jsIndexOf] at hidx)]
      rw [if_neg (show ¬(st.curBuf ≠ []) from by rw [hbuf]; simp)]]
    simp only []
    rw [tok_digits (some 2) _ _ (i + 1) (natToChars_digits _)]
    rfl
  · rw [tok_digits (some 2) _ _ i (natToChars_digits _), hbuf]
    rfl

theorem jsIndexOf_intToChars_dash (k : ℤ) : ¬jsIndexOf (intToChars k) '-' > 0 := by
  unfold intToChars
  split_ifs with hk
  · simp [jsIndexOf, List.findIdx?_cons]
  · have hnone : (natToChars k.toNat).findIdx? (· = '-') = none := by
      rw [List.findIdx?_eq_none_iff]
      intro cch hc
      simpa using digit_ne_dash cch (natToChars_digits _ cch hc)
    simp [jsIndexOf, hnone]

theorem tok_int_after (st : TokSt) (i : ℕ) (k : ℤ) (hk : k < 0)
    (hcmd : st.cmdType ≠ none) (hne : st.curBuf ≠ [])
    (hdash : ¬jsIndexOf st.curBuf '-' > 0) :
    tokLoop (some 2) st (intToChars k) i =
      Except.ok { st with doneBufs := st.doneBufs ++ [st.curBuf], curBuf := intToChars k } := by
  rw [show intToChars k = '-' :: natToChars k.natAbs from by unfold intToChars; rw [if_pos hk]]
  rw [tokLoop]
  rw [show tokStep (some 2) st '-' i =
      Except.ok { st with doneBufs := st.doneBufs ++ [st.curBuf], curBuf := ['-'] } from by
    unfold tokStep
    rw [if_neg (show ¬('-' ∈ numberChars) from by decide)]
    rw [if_pos (show '-' ∈ signChars from by decide)]
    rw [if_neg (show ¬(st.cmdType = none ∧ st.commands = []) from fun hand => hcmd hand.1)]
    rw [if_pos (show ('-' : Char) = '-' from rfl)]
    rw [if_neg (show ¬(st.cmdType = none ∨ jsIndexOf st.curBuf '-' > 0) from by
      rintro (hc | hidx)
      · exact hcmd hc
      · exact hdash hidx)]
    rw [if_pos hne]]
  simp only []
  rw [tok_digits (some 2) _ _ (i + 1) (natToChars_digits _)]
  rfl

theorem tok_space (st : TokSt) (i : ℕ) :
    tokStep (some 2) st ' ' i =
      Except.ok { st with doneBufs := st.doneBufs ++ [st.curBuf], curBuf := [] } := by
  unfold tokStep
  rw [if_neg (by decide), if_neg (by decide), if_neg (by decide),
    if_pos (show ' ' ∈ wsChars by decide)]

theorem packValues_pair (places : Option ℕ) (x y : ℝ) :
    packValues places [x, y] = floatToStringChars x places ++
      ((if 0 ≤ y then [' '] else []) ++ floatToStringChars y places) := by
  unfold packValues packValuesAux packValuesAux packValuesAux
  norm_num

theorem serializeCmd_m_int (xk yk : ℤ) :
    serializeCmd (some 2) false 0 (Cmd.m (xk : ℝ) (yk : ℝ)) =
      'M' :: (intToChars xk ++
        ((if (0 : ℝ) ≤ (yk : ℝ) then [' '] else []) ++ intToChars yk)) := by
  simp only [serializeCmd]
  rw [if_neg (show ¬(false = true) from by simp)]
  rw [packValues_pair, floatToStringChars_intCast, floatToStringChars_intCast]

theorem serializeCmd_l_int (xk yk : ℤ) :
    serializeCmd (some 2) false 0 (Cmd.l (xk : ℝ) (yk : ℝ)) =
      'L' :: (intToChars xk ++
        ((if (0 : ℝ) ≤ (yk : ℝ) then [' '] else []) ++ intToChars yk)) := by
  simp only [serializeCmd]
  rw [if_neg (show ¬(false = true) from by simp)]
  rw [packValues_pair, floatToStringChars_intCast, floatToStringChars_intCast]

theorem tok_letter (st : TokSt) (acc : List Cmd) (i : ℕ) (ch : Char)
    (hnum : ch ∉ numberChars) (hsign : ch ∉ signChars) (hch : ch ∈ supportedCmdChars)
    (hInv : applyCommand (some 2) st = ⟨st.cmdType, [], [], acc⟩) :
    tokStep (some 2) st ch i = Except.ok ⟨some ch, [], [], acc⟩ := by
  unfold tokStep
  rw [if_neg hnum, if_neg hsign, if_pos hch]
  by_cases hct : st.cmdType = none
  · rw [if_neg (show ¬(st.cmdType ≠ none) from by simpa using hct)]
    have happ : applyCommand (some 2) st = st := by
      unfold applyCommand
      rw [hct]
    rw [happ] at hInv
    rw [hInv]
  · rw [if_pos hct]
    rw [hInv]

theorem applyCommand_M (acc : List Cmd) (xk yk : ℤ) :
    applyCommand (some 2) ⟨some 'M', [intToChars xk], intToChars yk, acc⟩ =
      ⟨some 'M', [], [], acc ++ [Cmd.m (xk : ℝ) (yk : ℝ)]⟩ := by
  unfold applyCommand
  simp only [parseBuffer_pair]
  rw [if_neg (by simp)]
  simp +decide [applyMLrec]

theorem applyCommand_L (acc : List Cmd) (xk yk : ℤ) :
    applyCommand (some 2) ⟨some 'L', [intToChars xk], intToChars yk, acc⟩ =
      ⟨some 'L', [], [], acc ++ [Cmd.l (xk : ℝ) (yk : ℝ)]⟩ := by
  unfold applyCommand
  simp only [parseBuffer_pair]
  rw [if_neg (by simp)]
  simp +decide [applyMLrec]

theorem applyCommand_Z (acc : List Cmd) (hacc : acc.getLast? ≠ some Cmd.z) :
    applyCommand (some 2) ⟨some 'Z', [], [], acc⟩ =
      ⟨some 'Z', [], [], acc ++ [Cmd.z]⟩ := by
  unfold applyCommand
  simp only []
  rw [if_neg (by simp)]
  simp only [show 'Z'.toUpper = 'Z' from rfl]
  rw [if_neg (show ¬(('Z' : Char) = 'M') from by decide),
    if_neg (show ¬(('Z' : Char) = 'L') from by decide),
    if_neg (show ¬(('Z' : Char) = 'V') from by decide),
    if_neg (show ¬(('Z' : Char) = 'H') from by decide),
    if_neg (show ¬(('Z' : Char) = 'C') from by decide),
    if_neg (show ¬(('Z' : Char) = 'Q') from by decide),
    if_pos (trivial : True), if_pos (Or.inr hacc)]

theorem chunk_step (st : TokSt) (acc : List Cmd) (i : ℕ) (c : Cmd)
    (hInv : applyCommand (some 2) st = ⟨st.cmdType, [], [], acc⟩)
    (hml : mlzCmd c) (hint : intCmd c)
    (hz : c = Cmd.z → acc.getLast? ≠ some Cmd.z) :
    ∃ stC, tokLoop (some 2) st (serializeCmd (some 2) false 0 c) i = Except.ok stC ∧
      applyCommand (some 2) stC = ⟨stC.cmdType, [], [], acc ++ [c]⟩ := by
  cases c with
  | m x y =>
      obtain ⟨⟨xk, hxk⟩, yk, hyk⟩ := hint
      subst hxk hyk
      refine ⟨⟨some 'M', [intToChars xk], intToChars yk, acc⟩, ?_, applyCommand_M acc xk yk⟩
      rw [serializeCmd_m_int, tokLoop,
        tok_letter st acc i 'M' (by decide) (by decide) (by decide) hInv]
      rw [show (Except.ok (⟨some 'M', [], [], acc⟩ : TokSt) : Except (Char × ℕ) TokSt) =
        Except.ok ⟨some 'M', [], [], acc⟩ from rfl]
      simp only []
      rw [tokLoop_append (some 2) (intToChars xk) _ _ _ _
        (tok_int_fresh ⟨some 'M', [], [], acc⟩ (i + 1) xk (by simp) rfl)]
      by_cases hy : (0 : ℝ) ≤ (yk : ℝ)
      · rw [if_pos hy]
        rw [show ([' '] ++ intToChars yk) = ' ' :: intToChars yk from rfl, tokLoop, tok_space]
        simp only []
        rw [tok_int_fresh _ _ yk (by simp) rfl]
        rfl
      · rw [if_neg hy]
        simp only [List.nil_append]
        have hyneg : yk < 0 := by exact_mod_cast not_le.mp hy
        rw [tok_int_after _ _ yk hyneg (by simp) (intToChars_ne_nil xk)
          (jsIndexOf_intToChars_dash xk)]
        rfl
  | l x y =>
      obtain ⟨⟨xk, hxk⟩, yk, hyk⟩ := hint
      subst hxk hyk
      refine ⟨⟨some 'L', [intToChars xk], intToChars yk, acc⟩, ?_, applyCommand_L acc xk yk⟩
      rw [serializeCmd_l_int, tokLoop,
        tok_letter st acc i 'L' (by decide) (by decide) (by decide) hInv]
      simp only []
      rw [tokLoop_append (some 2) (intToChars xk) _ _ _ _
        (tok_int_fresh ⟨some 'L', [], [], acc⟩ (i + 1) xk (by simp) rfl)]
      by_cases hy : (0 : ℝ) ≤ (yk : ℝ)
      · rw [if_pos hy]
        rw [show ([' '] ++ intToChars yk) = ' ' :: intToChars yk from rfl, tokLoop, tok_space]
        simp only []
        rw [tok_int_fresh _ _ yk (by simp) rfl]
        rfl
      · rw [if_neg hy]
        simp only [List.nil_append]
        have hyneg : yk < 0 := by exact_mod_cast not_le.mp hy
        rw [tok_int_after _ _ yk hyneg (by simp) (intToChars_ne_nil xk)
          (jsIndexOf_intToChars_dash xk)]
        rfl
  | z =>
      refine ⟨⟨some 'Z', [], [], acc⟩, ?_, applyCommand_Z acc (hz rfl)⟩
      rw [show serializeCmd (some 2) false 0 Cmd.z = ['Z'] from rfl, tokLoop,
        tok_letter st acc i 'Z' (by decide) (by decide) (by decide) hInv]
      rfl
  | q x1 y1 x y => exact absurd hml (by simp [mlzCmd])
  | c x1 y1 x2 y2 x y => exact absurd hml (by simp [mlzCmd])

theorem parse_chunks :
    ∀ (todo : List Cmd) (st : TokSt) (acc : List Cmd) (i : ℕ),
      applyCommand (some 2) st = ⟨st.cmdType, [], [], acc⟩ →
      (∀ c ∈ todo, mlzCmd c ∧ intCmd c) →
      noConsecZ (acc ++ todo) →
      ∃ stf, tokLoop (some 2) st
          ((todo.map (serializeCmd (some 2) false 0)).flatten) i = Except.ok stf ∧
        applyCommand (some 2) stf = ⟨stf.cmdType, [], [], acc ++ todo⟩ := by
  intro todo
  induction todo with
  | nil =>
      intro st acc i hInv _ _
      exact ⟨st, by rw [show (([] : List Cmd).map (serializeCmd (some 2) false 0)).flatten =
        ([] : List Char) from rfl, tokLoop], by simpa using hInv⟩
  | cons c todo ih =>
      intro st acc i hInv hmi hnz
      have hz : c = Cmd.z → acc.getLast? ≠ some Cmd.z := by
        intro hcz hlast
        subst hcz
        obtain ⟨-, -, hrel⟩ := List.chain'_append.mp hnz
        exact hrel Cmd.z (by simp [hlast]) Cmd.z (by simp) ⟨rfl, rfl⟩
      obtain ⟨stC, hloop, hInvC⟩ := chunk_step st acc i c hInv
        (hmi c (List.mem_cons_self c todo)).1 (hmi c (List.mem_cons_self c todo)).2 hz
      have hflat : ((c :: todo).map (serializeCmd (some 2) false 0)).flatten =
          serializeCmd (some 2) false 0 c ++
            ((todo.map (serializeCmd (some 2) false 0)).flatten) := by
        simp
      have hnz2 : noConsecZ ((acc ++ [c]) ++ todo) := by
        rw [List.append_assoc, List.singleton_append]
        exact hnz
      obtain ⟨stf, hloopf, hInvF⟩ := ih stC (acc ++ [c])
        (i + (serializeCmd (some 2) false 0 c).length)
        hInvC (fun d hd => hmi d (List.mem_cons_of_mem c hd)) hnz2
      refine ⟨stf, ?_, by simpa [List.append_assoc] using hInvF⟩
      rw [hflat, tokLoop_append (some 2) _ _ _ _ _ hloop, hloopf]

theorem serializeCmd_flip (places : Option ℕ) (fb : ℝ) (c : Cmd) :
    serializeCmd places true fb c = serializeCmd places false 0 (flipCmd fb c) := by
  cases c <;> simp [serializeCmd, flipCmd]

theorem endX_flip (fb : ℝ) (c : Cmd) : (flipCmd fb c).endX = c.endX := by
  cases c <;> rfl

theorem endY_flip (fb : ℝ) (c : Cmd) :
    (flipCmd fb c).endY = c.endY.map (fun w => fb - w) := by
  cases c <;> rfl

theorem flip_eq_z (fb : ℝ) (c : Cmd) : flipCmd fb c = Cmd.z ↔ c = Cmd.z := by
  cases c <;> simp [flipCmd]

theorem setTypeM_flip (fb : ℝ) (c : Cmd) :
    Cmd.setTypeM (flipCmd fb c) = flipCmd fb (Cmd.setTypeM c) := by
  cases c <;> rfl

theorem modifyHead_map_flip (fb : ℝ) (l : List Cmd) :
    (l.map (flipCmd fb)).modifyHead Cmd.setTypeM =
      (l.modifyHead Cmd.setTypeM).map (flipCmd fb) := by
  cases l with
  | nil => rfl
  | cons a t => simp [List.modifyHead, setTypeM_flip]

theorem noConsecZ_map_flip (fb : ℝ) (cmds : List Cmd) (h : noConsecZ cmds) :
    noConsecZ (cmds.map (flipCmd fb)) := by
  unfold noConsecZ at h ⊢
  rw [List.chain'_map]
  exact h.imp (fun a b hab hc => hab ⟨(flip_eq_z fb _).mp hc.1, (flip_eq_z fb _).mp hc.2⟩)

theorem mlzCmd_flip (fb : ℝ) (c : Cmd) (h : mlzCmd c) : mlzCmd (flipCmd fb c) := by
  cases c <;> simp_all [mlzCmd, flipCmd]

theorem intCmd_flip (K : ℤ) (c : Cmd) (h : intCmd c) : intCmd (flipCmd (K : ℝ) c) := by
  cases c with
  | m x y =>
      obtain ⟨hx, k, hk⟩ := h
      exact ⟨hx, ⟨K - k, by rw [hk]; push_cast; ring⟩⟩
  | l x y =>
      obtain ⟨hx, k, hk⟩ := h
      exact ⟨hx, ⟨K - k, by rw [hk]; push_cast; ring⟩⟩
  | q x1 y1 x y =>
      obtain ⟨⟨hx1, k1, hk1⟩, hx, k, hk⟩ := h
      exact ⟨⟨hx1, ⟨K - k1, by rw [hk1]; push_cast; ring⟩⟩,
        hx, ⟨K - k, by rw [hk]; push_cast; ring⟩⟩
  | c x1 y1 x2 y2 x y =>
      obtain ⟨⟨hx1, k1, hk1⟩, ⟨hx2, k2, hk2⟩, hx, k, hk⟩ := h
      exact ⟨⟨hx1, ⟨K - k1, by rw [hk1]; push_cast; ring⟩⟩,
        ⟨hx2, ⟨K - k2, by rw [hk2]; push_cast; ring⟩⟩,
        hx, ⟨K - k, by rw [hk]; push_cast; ring⟩⟩
  | z => trivial

theorem optZGuard_flip (fb : ℝ) (l : List Cmd) :
    optZGuard (l.map (flipCmd fb)) ↔ optZGuard l := by
  unfold optZGuard
  rw [List.head?_map, List.getLast?_map]
  rw [show (l.map (flipCmd fb)).drop 1 = (l.drop 1).map (flipCmd fb) from by
    rw [List.map_drop]]
  rw [List.head?_map]
  cases hA : l.head? with
  | none => simp
  | some c1 =>
      cases hB : (l.drop 1).head? with
      | none => cases c1 <;> simp [flipCmd]
      | some c2 =>
          cases hC : l.getLast? with
          | none => cases c1 <;> cases c2 <;> simp [flipCmd]
          | some c3 =>
              cases c1 <;> cases c2 <;> cases c3 <;>
                simp [flipCmd, sub_right_inj]

theorem lastHit_flip (fb x y : ℝ) (l : List Cmd) :
    (∃ p, (l.map (flipCmd fb)).getLast? = some p ∧ p.endX = some x ∧
        p.endY = some (fb - y)) ↔
      (∃ p, l.getLast? = some p ∧ p.endX = some x ∧ p.endY = some y) := by
  rw [List.getLast?_map]
  cases hC : l.getLast? with
  | none => simp
  | some q =>
      simp only [Option.map_some', Option.some.injEq]
      rw [show (∃ p, flipCmd fb q = p ∧ p.endX = some x ∧ p.endY = some (fb - y)) ↔
          ((flipCmd fb q).endX = some x ∧ (flipCmd fb q).endY = some (fb - y)) from by
        constructor
        · rintro ⟨p, hp, h1, h2⟩
          exact ⟨hp ▸ h1, hp ▸ h2⟩
        · rintro ⟨h1, h2⟩
          exact ⟨flipCmd fb q, rfl, h1, h2⟩]
      rw [show (∃ p, q = p ∧ p.endX = some x ∧ p.endY = some y) ↔
          (q.endX = some x ∧ q.endY = some y) from by
        constructor
        · rintro ⟨p, hp, h1, h2⟩
          exact ⟨hp ▸ h1, hp ▸ h2⟩
        · rintro ⟨h1, h2⟩
          exact ⟨q, rfl, h1, h2⟩]
      rw [endX_flip, endY_flip]
      cases hq : q.endY <;> simp [sub_right_inj]

theorem transformCmd_flip (fb : ℝ) (c : Cmd) :
    transformCmd defaultParseOpts fb (flipCmd fb c) = c := by
  cases c <;> simp [transformCmd, flipCmd, defaultParseOpts, sub_sub_cancel]

theorem addAxis_none_none (v : ℝ) : addAxis none none v = (some v, some v) := by
  unfold addAxis
  norm_num

theorem addAxis_none_some (b v : ℝ) : addAxis none (some b) v = (some v, some v) := by
  unfold addAxis
  norm_num

theorem addAxis_some_none (a v : ℝ) : addAxis (some a) none v = (some v, some v) := by
  unfold addAxis
  norm_num

theorem addAxis_some_some (a b v : ℝ) :
    addAxis (some a) (some b) v =
      (some (if v < a then v else a), some (if v > b then v else b)) := by
  unfold addAxis
  norm_num

theorem addAxis_cases (lo hi : Option ℝ) (v : ℝ) :
    ∃ l h, addAxis lo hi v = (some l, some h) ∧
      (l = v ∨ lo = some l) ∧ (h = v ∨ hi = some h) := by
  cases lo with
  | none =>
      cases hi with
      | none => exact ⟨v, v, addAxis_none_none v, Or.inl rfl, Or.inl rfl⟩
      | some b => exact ⟨v, v, addAxis_none_some b v, Or.inl rfl, Or.inl rfl⟩
  | some a =>
      cases hi with
      | none => exact ⟨v, v, addAxis_some_none a v, Or.inl rfl, Or.inl rfl⟩
      | some b =>
          refine ⟨if v < a then v else a, if v > b then v else b,
            addAxis_some_some a b v, ?_, ?_⟩
          · split_ifs with h
            · exact Or.inl rfl
            · exact Or.inr rfl
          · split_ifs with h
            · exact Or.inl rfl
            · exact Or.inr rfl

theorem addPoint_fields (b : BBox) (x y : ℝ) :
    b.addPoint (some x) (some y) =
      ⟨(addAxis b.x1 b.x2 x).1, (addAxis b.y1 b.y2 y).1,
       (addAxis b.x1 b.x2 x).2, (addAxis b.y1 b.y2 y).2⟩ := rfl

theorem addPoint_all_some (b : BBox) (x y : ℝ) :
    ∃ a c d e, b.addPoint (some x) (some y) = ⟨some a, some c, some d, some e⟩ := by
  obtain ⟨lx, hx, hAx, -, -⟩ := addAxis_cases b.x1 b.x2 x
  obtain ⟨ly, hy, hAy, -, -⟩ := addAxis_cases b.y1 b.y2 y
  exact ⟨lx, ly, hx, hy, by rw [addPoint_fields, hAx, hAy]⟩

theorem pathBBox_fold_int (cmds : List Cmd) :
    ∀ (b : BBox) (s1 s2 p1 p2 : ℝ),
      (∀ c ∈ cmds, mlzCmd c ∧ intCmd c) →
      (∀ w, b.y1 = some w → ∃ k : ℤ, w = k) →
      (∀ w, b.y2 = some w → ∃ k : ℤ, w = k) →
      (∀ w, (cmds.foldl pathBBoxStep (b, s1, s2, p1, p2)).1.y1 = some w →
        ∃ k : ℤ, w = k) ∧
      (∀ w, (cmds.foldl pathBBoxStep (b, s1, s2, p1, p2)).1.y2 = some w →
        ∃ k : ℤ, w = k) := by
  induction cmds with
  | nil =>
      intro b s1 s2 p1 p2 _ hy1 hy2
      exact ⟨hy1, hy2⟩
  | cons c rest ih =>
      intro b s1 s2 p1 p2 hmi hy1 hy2
      rw [List.foldl_cons]
      cases c with
      | m x y =>
          obtain ⟨-, -, yk, hyk⟩ := hmi _ (List.mem_cons_self _ rest)
          obtain ⟨l, h, hA, hl, hh⟩ := addAxis_cases b.y1 b.y2 y
          refine ih _ _ _ _ _ (fun d hd => hmi d (List.mem_cons_of_mem _ hd)) ?_ ?_
          · intro w hw
            rw [addPoint_fields, hA] at hw
            simp only [Option.some.injEq] at hw
            subst hw
            rcases hl with hl | hl
            · exact hl ▸ ⟨yk, hyk⟩
            · exact hy1 l hl
          · intro w hw
            rw [addPoint_fields, hA] at hw
            simp only [Option.some.injEq] at hw
            subst hw
            rcases hh with hh | hh
            · exact hh ▸ ⟨yk, hyk⟩
            · exact hy2 h hh
      | l x y =>
          obtain ⟨-, -, yk, hyk⟩ := hmi _ (List.mem_cons_self _ rest)
          obtain ⟨l, h, hA, hl, hh⟩ := addAxis_cases b.y1 b.y2 y
          refine ih _ _ _ _ _ (fun d hd => hmi d (List.mem_cons_of_mem _ hd)) ?_ ?_
          · intro w hw
            rw [addPoint_fields, hA] at hw
            simp only [Option.some.injEq] at hw
            subst hw
            rcases hl with hl | hl
            · exact hl ▸ ⟨yk, hyk⟩
            · exact hy1 l hl
          · intro w hw
            rw [addPoint_fields, hA] at hw
            simp only [Option.some.injEq] at hw
            subst hw
            rcases hh with hh | hh
            · exact hh ▸ ⟨yk, hyk⟩
            · exact hy2 h hh
      | z =>
          exact ih _ _ _ _ _ (fun d hd => hmi d (List.mem_cons_of_mem _ hd)) hy1 hy2
      | q x1 y1 x y =>
          exact absurd (hmi _ (List.mem_cons_self _ rest)).1 (by simp [mlzCmd])
      | c x1 y1 x2 y2 x y =>
          exact absurd (hmi _ (List.mem_cons_self _ rest)).1 (by simp [mlzCmd])

theorem bboxOfCommands_int (cmds : List Cmd)
    (h : ∀ c ∈ cmds, mlzCmd c ∧ intCmd c) :
    ∃ k : ℤ, (bboxOfCommands cmds).y1.getD 0 + (bboxOfCommands cmds).y2.getD 0 =
      (k : ℝ) := by
  obtain ⟨h1, h2⟩ := pathBBox_fold_int cmds BBox.init 0 0 0 0 h
    (by intro w hw; simp [BBox.init] at hw) (by intro w hw; simp [BBox.init] at hw)
  unfold bboxOfCommands
  simp only []
  split_ifs with he
  · obtain ⟨l, hgt, hA, hl, hh⟩ :=
      addAxis_cases (cmds.foldl pathBBoxStep (BBox.init, 0, 0, 0, 0)).1.y1
        (cmds.foldl pathBBoxStep (BBox.init, 0, 0, 0, 0)).1.y2 0
    have hli : ∃ k : ℤ, l = (k : ℝ) := by
      rcases hl with hl | hl
      · exact ⟨0, by simp [hl]⟩
      · exact h1 l hl
    have hhi : ∃ k : ℤ, hgt = (k : ℝ) := by
      rcases hh with hh | hh
      · exact ⟨0, by simp [hh]⟩
      · exact h2 hgt hh
    obtain ⟨ka, hka⟩ := hli
    obtain ⟨kb, hkb⟩ := hhi
    refine ⟨ka + kb, ?_⟩
    rw [addPoint_fields, hA]
    simp only [Option.getD_some]
    rw [hka, hkb]
    push_cast
    ring
  · rcases hyA : (cmds.foldl pathBBoxStep (BBox.init, 0, 0, 0, 0)).1.y1 with _ | a <;>
      rcases hyB : (cmds.foldl pathBBoxStep (BBox.init, 0, 0, 0, 0)).1.y2 with _ | bb
    · exact ⟨0, by simp⟩
    · obtain ⟨kb, hkb⟩ := h2 bb hyB
      exact ⟨kb, by simp [hkb]⟩
    · obtain ⟨ka, hka⟩ := h1 a hyA
      exact ⟨ka, by simp [hka]⟩
    · obtain ⟨ka, hka⟩ := h1 a hyA
      obtain ⟨kb, hkb⟩ := h2 bb hyB
      exact ⟨ka + kb, by rw [hka, hkb]; push_cast; simp⟩

theorem addAxis_flip (fb : ℝ) (lo hi : Option ℝ) (v : ℝ) :
    ∃ l h, addAxis lo hi v = (some l, some h) ∧
      addAxis (hi.map fun w => fb - w) (lo.map fun w => fb - w) (fb - v) =
        (some (fb - h), some (fb - l)) := by
  cases lo with
  | none =>
      cases hi with
      | none =>
          exact ⟨v, v, addAxis_none_none v, by
            simp only [Option.map_none']
            rw [addAxis_none_none]⟩
      | some b =>
          exact ⟨v, v, addAxis_none_some b v, by
            simp only [Option.map_some', Option.map_none']
            rw [addAxis_some_none]⟩
  | some a =>
      cases hi with
      | none =>
          exact ⟨v, v, addAxis_some_none a v, by
            simp only [Option.map_some', Option.map_none']
            rw [addAxis_none_some]⟩
      | some b =>
          refine ⟨if v < a then v else a, if v > b then v else b,
            addAxis_some_some a b v, ?_⟩
          simp only [Option.map_some']
          rw [addAxis_some_some]
          simp only [Prod.mk.injEq, Option.some.injEq]
          constructor <;> split_ifs <;> linarith

theorem addPoint_flip (fb x y : ℝ) (b b' : BBox)
    (hx1 : b'.x1 = b.x1) (hx2 : b'.x2 = b.x2)
    (hy1 : b'.y1 = b.y2.map fun w => fb - w) (hy2 : b'.y2 = b.y1.map fun w => fb - w) :
    (b'.addPoint (some x) (some (fb - y))).x1 = (b.addPoint (some x) (some y)).x1 ∧
    (b'.addPoint (some x) (some (fb - y))).x2 = (b.addPoint (some x) (some y)).x2 ∧
    (b'.addPoint (some x) (some (fb - y))).y1 =
      ((b.addPoint (some x) (some y)).y2.map fun w => fb - w) ∧
    (b'.addPoint (some x) (some (fb - y))).y2 =
      ((b.addPoint (some x) (some y)).y1.map fun w => fb - w) := by
  obtain ⟨l, h, hA, hA'⟩ := addAxis_flip fb b.y1 b.y2 y
  rw [addPoint_fields, addPoint_fields, hx1, hx2, hy1, hy2, hA, hA']
  exact ⟨rfl, rfl, rfl, rfl⟩

theorem pathBBox_fold_flip (fb : ℝ) (cmds : List Cmd) :
    ∀ (b b' : BBox) (s1 s2 p1 p2 t1 t2 q1 q2 : ℝ),
      (∀ c ∈ cmds, mlzCmd c) →
      b'.x1 = b.x1 → b'.x2 = b.x2 →
      b'.y1 = (b.y2.map fun w => fb - w) → b'.y2 = (b.y1.map fun w => fb - w) →
      ((cmds.map (flipCmd fb)).foldl pathBBoxStep (b', t1, t2, q1, q2)).1.x1 =
        (cmds.foldl pathBBoxStep (b, s1, s2, p1, p2)).1.x1 ∧
      ((cmds.map (flipCmd fb)).foldl pathBBoxStep (b', t1, t2, q1, q2)).1.x2 =
        (cmds.foldl pathBBoxStep (b, s1, s2, p1, p2)).1.x2 ∧
      ((cmds.map (flipCmd fb)).foldl pathBBoxStep (b', t1, t2, q1, q2)).1.y1 =
        ((cmds.foldl pathBBoxStep (b, s1, s2, p1, p2)).1.y2.map fun w => fb - w) ∧
      ((cmds.map (flipCmd fb)).foldl pathBBoxStep (b', t1, t2, q1, q2)).1.y2 =
        ((cmds.foldl pathBBoxStep (b, s1, s2, p1, p2)).1.y1.map fun w => fb - w) := by
  induction cmds with
  | nil =>
      intro b b' s1 s2 p1 p2 t1 t2 q1 q2 _ hx1 hx2 hy1 hy2
      exact ⟨hx1, hx2, hy1, hy2⟩
  | cons c rest ih =>
      intro b b' s1 s2 p1 p2 t1 t2 q1 q2 hml hx1 hx2 hy1 hy2
      cases c with
      | m x y =>
          rw [show (Cmd.m x y :: rest).map (flipCmd fb) =
            Cmd.m x (fb - y) :: rest.map (flipCmd fb) from rfl,
            List.foldl_cons, List.foldl_cons]
          obtain ⟨k1, k2, k3, k4⟩ := addPoint_flip fb x y b b' hx1 hx2 hy1 hy2
          exact ih _ _ _ _ _ _ _ _ _ _
            (fun d hd => hml d (List.mem_cons_of_mem _ hd)) k1 k2 k3 k4
      | l x y =>
          rw [show (Cmd.l x y :: rest).map (flipCmd fb) =
            Cmd.l x (fb - y) :: rest.map (flipCmd fb) from rfl,
            List.foldl_cons, List.foldl_cons]
          obtain ⟨k1, k2, k3, k4⟩ := addPoint_flip fb x y b b' hx1 hx2 hy1 hy2
          exact ih _ _ _ _ _ _ _ _ _ _
            (fun d hd => hml d (List.mem_cons_of_mem _ hd)) k1 k2 k3 k4
      | z =>
          rw [show (Cmd.z :: rest).map (flipCmd fb) =
            Cmd.z :: rest.map (flipCmd fb) from rfl,
            List.foldl_cons, List.foldl_cons]
          exact ih _ _ _ _ _ _ _ _ _ _
            (fun d hd => hml d (List.mem_cons_of_mem _ hd)) hx1 hx2 hy1 hy2
      | q x1 y1 x y =>
          exact absurd (hml _ (List.mem_cons_self _ rest)) (by simp [mlzCmd])
      | c x1 y1 x2 y2 x y =>
          exact absurd (hml _ (List.mem_cons_self _ rest)) (by simp [mlzCmd])

theorem pathBBox_fold_init_or_some (cmds : List Cmd) :
    ∀ (b : BBox) (s1 s2 p1 p2 : ℝ),
      (∀ c ∈ cmds, mlzCmd c) →
      (b = BBox.init ∨ ∃ a c2 d e, b = ⟨some a, some c2, some d, some e⟩) →
      ((cmds.foldl pathBBoxStep (b, s1, s2, p1, p2)).1 = BBox.init ∨
        ∃ a c2 d e, (cmds.foldl pathBBoxStep (b, s1, s2, p1, p2)).1 =
          ⟨some a, some c2, some d, some e⟩) := by
  induction cmds with
  | nil =>
      intro b s1 s2 p1 p2 _ hb
      exact hb
  | cons c rest ih =>
      intro b s1 s2 p1 p2 hml hb
      rw [List.foldl_cons]
      cases c with
      | m x y =>
          exact ih _ _ _ _ _ (fun d hd => hml d (List.mem_cons_of_mem _ hd))
            (Or.inr (addPoint_all_some b x y))
      | l x y =>
          exact ih _ _ _ _ _ (fun d hd => hml d (List.mem_cons_of_mem _ hd))
            (Or.inr (addPoint_all_some b x y))
      | z =>
          exact ih _ _ _ _ _ (fun d hd => hml d (List.mem_cons_of_mem _ hd)) hb
      | q x1 y1 x y =>
          exact absurd (hml _ (List.mem_cons_self _ rest)) (by simp [mlzCmd])
      | c x1 y1 x2 y2 x y =>
          exact absurd (hml _ (List.mem_cons_self _ rest)) (by simp [mlzCmd])

theorem bboxOfCommands_flip (fb : ℝ) (cmds : List Cmd)
    (hml : ∀ c ∈ cmds, mlzCmd c)
    (hfb : (bboxOfCommands cmds).y1.getD 0 + (bboxOfCommands cmds).y2.getD 0 = fb) :
    (bboxOfCommands (cmds.map (flipCmd fb))).y1.getD 0 +
      (bboxOfCommands (cmds.map (flipCmd fb))).y2.getD 0 = fb := by
  obtain ⟨e1, e2, e3, e4⟩ := pathBBox_fold_flip fb cmds BBox.init BBox.init
    0 0 0 0 0 0 0 0 hml rfl rfl rfl rfl
  have hio := pathBBox_fold_init_or_some cmds BBox.init 0 0 0 0 hml (Or.inl rfl)
  unfold bboxOfCommands at hfb ⊢
  simp only [] at hfb ⊢
  rcases hio with hinit | ⟨a, c2, d, e, hsome⟩
  · have hinit' : ((cmds.map (flipCmd fb)).foldl pathBBoxStep
        (BBox.init, 0, 0, 0, 0)).1 = BBox.init := by
      rcases hE : ((cmds.map (flipCmd fb)).foldl pathBBoxStep
        (BBox.init, 0, 0, 0, 0)).1 with ⟨f1, f2, f3, f4⟩
      rw [hE] at e1 e2 e3 e4
      rw [hinit] at e1 e2 e3 e4
      simp only [BBox.init] at e1 e2 e3 e4 ⊢
      simp only [Option.map_none'] at e3 e4
      rw [e1, e2, e3, e4]
    rw [hinit] at hfb
    rw [hinit']
    simpa using hfb
  · have hsome' : ((cmds.map (flipCmd fb)).foldl pathBBoxStep
        (BBox.init, 0, 0, 0, 0)).1 = ⟨some a, some (fb - e), some d, some (fb - c2)⟩ := by
      rcases hE : ((cmds.map (flipCmd fb)).foldl pathBBoxStep
        (BBox.init, 0, 0, 0, 0)).1 with ⟨f1, f2, f3, f4⟩
      rw [hE] at e1 e2 e3 e4
      rw [hsome] at e1 e2 e3 e4
      simp only [Option.map_some'] at e1 e2 e3 e4
      rw [e1, e2, e3, e4]
    rw [hsome] at hfb
    rw [if_neg (by simp [BBox.isEmpty])] at hfb
    rw [hsome']
    rw [if_neg (by simp [BBox.isEmpty])]
    simp only [Option.getD_some] at hfb ⊢
    linarith

set_option maxRecDepth 65536 in
theorem optLoop_flip (fb : ℝ) (cmds : List Cmd) :
    ∀ (fin : List (List Cmd)) (cur : List Cmd) (sx sy : ℝ),
      (∀ c ∈ cmds, mlzCmd c) →
      optLoop ⟨fin.map (List.map (flipCmd fb)), cur.map (flipCmd fb), sx, fb - sy⟩
          (cmds.map (flipCmd fb)) =
        ⟨(optLoop ⟨fin, cur, sx, sy⟩ cmds).finished.map (List.map (flipCmd fb)),
         (optLoop ⟨fin, cur, sx, sy⟩ cmds).current.map (flipCmd fb),
         (optLoop ⟨fin, cur, sx, sy⟩ cmds).startX,
         fb - (optLoop ⟨fin, cur, sx, sy⟩ cmds).startY⟩ := by
  induction cmds with
  | nil =>
      intro fin cur sx sy _
      rfl
  | cons c rest ih =>
      intro fin cur sx sy hml
      have hrest : ∀ d ∈ rest, mlzCmd d := fun d hd => hml d (List.mem_cons_of_mem _ hd)
      cases c with
      | m x y =>
          simp only [List.map_cons, show flipCmd fb (Cmd.m x y) = Cmd.m x (fb - y) from rfl]
          simp only [optLoop]
          simpa [List.map_append, flipCmd] using ih fin (cur ++ [Cmd.m x y]) x y hrest
      | l x y =>
          simp only [List.map_cons, show flipCmd fb (Cmd.l x y) = Cmd.l x (fb - y) from rfl]
          simp only [optLoop]
          have hhead : ((rest.map (flipCmd fb)).head? = none) ↔ (rest.head? = none) := by
            rw [List.head?_map]
            cases rest.head? <;> simp
          have habs : (|x - sx| > 1 ∨ |fb - y - (fb - sy)| > 1) ↔
              (|x - sx| > 1 ∨ |y - sy| > 1) := by
            rw [show fb - y - (fb - sy) = -(y - sy) from by ring, abs_neg]
          have hlast := lastHit_flip fb x y cur
          simp only [hhead, habs, hlast]
          split_ifs <;>
            first
            | simpa using ih fin cur sx sy hrest
            | simpa [List.map_append, flipCmd] using ih fin (cur ++ [Cmd.l x y]) sx sy hrest
      | z =>
          simp only [List.map_cons, show flipCmd fb Cmd.z = Cmd.z from rfl]
          simp only [optLoop]
          have hg := optZGuard_flip fb cur
          have hcur : (cur.map (flipCmd fb) ++ [Cmd.z]) = (cur ++ [Cmd.z]).map (flipCmd fb) := by
            simp [flipCmd]
          have hmh : (((cur ++ [Cmd.z]).map (flipCmd fb)).drop 1).modifyHead Cmd.setTypeM =
              (((cur ++ [Cmd.z]).drop 1).modifyHead Cmd.setTypeM).map (flipCmd fb) := by
            rw [show ((cur ++ [Cmd.z]).map (flipCmd fb)).drop 1 =
              ((cur ++ [Cmd.z]).drop 1).map (flipCmd fb) from by rw [List.map_drop]]
            exact modifyHead_map_flip fb _
          have hnil : (rest.map (flipCmd fb) = []) ↔ (rest = []) := by simp
          simp only [hg, hcur, hmh, ne_eq, hnil]
          split_ifs <;>
            first
            | simpa [List.map_append] using
                ih (fin ++ [(((cur ++ [Cmd.z]).drop 1).modifyHead Cmd.setTypeM)]) [] sx sy hrest
            | simpa using ih fin (((cur ++ [Cmd.z]).drop 1).modifyHead Cmd.setTypeM) sx sy hrest
            | simpa [List.map_append] using ih (fin ++ [cur ++ [Cmd.z]]) [] sx sy hrest
            | simpa [List.map_append, flipCmd] using ih fin (cur ++ [Cmd.z]) sx sy hrest
      | q x1 y1 x y =>
          exact absurd (hml _ (List.mem_cons_self _ rest)) (by simp [mlzCmd])
      | c x1 y1 x2 y2 x y =>
          exact absurd (hml _ (List.mem_cons_self _ rest)) (by simp [mlzCmd])

theorem flatten_map_flip (fb : ℝ) (L : List (List Cmd)) :
    (L.map (List.map (flipCmd fb))).flatten = L.flatten.map (flipCmd fb) := by
  induction L with
  | nil => rfl
  | cons a t ih => rw [List.map_cons, List.flatten_cons, List.flatten_cons, List.map_append, ih]

theorem optimize_map_flip (fb : ℝ) (cmds : List Cmd)
    (hml : ∀ c ∈ cmds, mlzCmd c)
    (hhead : cmds = [] ∨ ∃ x y rest, cmds = Cmd.m x y :: rest) :
    optimizeCommands (cmds.map (flipCmd fb)) =
      (optimizeCommands cmds).map (flipCmd fb) := by
  rcases hhead with hnil | ⟨x, y, rest, hcons⟩
  · subst hnil
    rfl
  · subst hcons
    have hrest : ∀ d ∈ rest, mlzCmd d := fun d hd => hml d (List.mem_cons_of_mem _ hd)
    unfold optimizeCommands
    simp only [List.map_cons, show flipCmd fb (Cmd.m x y) = Cmd.m x (fb - y) from rfl]
    simp only [optLoop]
    simp only [List.nil_append]
    have hstep := optLoop_flip fb rest [] [Cmd.m x y] x y hrest
    simp only [List.map_nil, List.map_cons, flipCmd] at hstep
    rw [hstep]
    rw [show ((optLoop ⟨[], [Cmd.m x y], x, y⟩ rest).finished.map (List.map (flipCmd fb)) ++
        [(optLoop ⟨[], [Cmd.m x y], x, y⟩ rest).current.map (flipCmd fb)]) =
      ((optLoop ⟨[], [Cmd.m x y], x, y⟩ rest).finished ++
        [(optLoop ⟨[], [Cmd.m x y], x, y⟩ rest).current]).map (List.map (flipCmd fb)) from by
      simp]
    rw [flatten_map_flip]

theorem map_transform_flip (fb : ℝ) (cmds : List Cmd) :
    (cmds.map (flipCmd fb)).map (transformCmd defaultParseOpts fb) = cmds := by
  rw [List.map_map]
  rw [show (transformCmd defaultParseOpts fb) ∘ (flipCmd fb) = id from
    funext (fun c => transformCmd_flip fb c)]
  rw [List.map_id]

/-- Exact serialize/parse round trip for `M`/`L`/`Z` paths with integer
coordinates that `optimizeCommands` leaves unchanged (and no two consecutive
`Z` commands, which the parser deduplicates; the path starts with an `M` or is
empty, so the optimizer's `startX`/`startY` seeds line up). -/
theorem roundTrip_mlz_int (p : RPath)
    (hml : ∀ c ∈ p.commands, mlzCmd c) (hint : ∀ c ∈ p.commands, intCmd c)
    (hz : noConsecZ p.commands)
    (hhead : p.commands = [] ∨ ∃ x y rest, p.commands = Cmd.m x y :: rest)
    (hfix : optimizeCommands p.commands = p.commands) :
    fromSVGCommands defaultParseOpts (toPathData p defaultOutOpts) =
      Except.ok p.commands := by
  obtain ⟨K, hK⟩ := bboxOfCommands_int p.commands (fun c hc => ⟨hml c hc, hint c hc⟩)
  have hser : toPathData p defaultOutOpts =
      ((p.commands.map (flipCmd ((bboxOfCommands p.commands).y1.getD 0 +
          (bboxOfCommands p.commands).y2.getD 0))).map
        (serializeCmd (some 2) false 0)).flatten := by
    unfold toPathData
    rw [if_pos (show defaultOutOpts.optimize = true from rfl), hfix]
    unfold serializeTail
    simp only []
    rw [if_pos (show defaultOutOpts.flipY = true ∧ defaultOutOpts.flipYBase = none from
      ⟨rfl, rfl⟩)]
    simp only [show defaultOutOpts.decimalPlaces = some 2 from rfl,
      show defaultOutOpts.flipY = true from rfl]
    rw [show serializeCmd (some 2) true
        ((bboxOfCommands p.commands).y1.getD 0 + (bboxOfCommands p.commands).y2.getD 0) =
      fun c => serializeCmd (some 2) false 0
        (flipCmd ((bboxOfCommands p.commands).y1.getD 0 +
          (bboxOfCommands p.commands).y2.getD 0) c) from funext (serializeCmd_flip _ _)]
    rw [List.map_map]
    rfl
  have hflip : ∀ c ∈ p.commands.map (flipCmd ((bboxOfCommands p.commands).y1.getD 0 +
      (bboxOfCommands p.commands).y2.getD 0)), mlzCmd c ∧ intCmd c := by
    intro c hc
    obtain ⟨d, hd, rfl⟩ := List.mem_map.mp hc
    refine ⟨mlzCmd_flip _ _ (hml d hd), ?_⟩
    rw [hK]
    exact intCmd_flip K d (hint d hd)
  obtain ⟨stf, hloop, happ⟩ := parse_chunks
    (p.commands.map (flipCmd ((bboxOfCommands p.commands).y1.getD 0 +
      (bboxOfCommands p.commands).y2.getD 0)))
    ⟨none, [], [], []⟩ [] 0 rfl hflip
    (by
      rw [List.nil_append]
      exact noConsecZ_map_flip _ p.commands hz)
  have hoptflip : optimizeCommands (p.commands.map
      (flipCmd ((bboxOfCommands p.commands).y1.getD 0 +
        (bboxOfCommands p.commands).y2.getD 0))) =
      p.commands.map (flipCmd ((bboxOfCommands p.commands).y1.getD 0 +
        (bboxOfCommands p.commands).y2.getD 0)) := by
    rw [optimize_map_flip _ p.commands hml hhead, hfix]
  have hfb2 := bboxOfCommands_flip
    ((bboxOfCommands p.commands).y1.getD 0 + (bboxOfCommands p.commands).y2.getD 0)
    p.commands hml rfl
  unfold fromSVGCommands
  rw [hser]
  simp only [show defaultParseOpts.decimalPlaces = some 2 from rfl]
  rw [hloop]
  simp only []
  rw [happ]
  simp only [List.nil_append]
  rw [if_pos (show defaultParseOpts.optimize = true from rfl)]
  rw [hoptflip]
  rw [if_pos (show defaultParseOpts.flipY = true ∧
    defaultParseOpts.flipYBaseGiven = none from ⟨rfl, rfl⟩)]
  rw [hfb2]
  rw [map_transform_flip]

/-- C6: the round trip is exact — not merely up to rounding — on closed
polygonal paths (`M`/`L`/`Z`, integer coordinates, starting with `M` or empty,
no consecutive `Z`s) that the default `optimize: true` pass leaves unchanged:
serializing with `toPathData()`'s default flip (`flipY: true`, `flipYBase`
derived from the path's own bounding box) and parsing the output with
`fromSVG`'s defaults reproduces the command list exactly.  (The original
claim's unconditional form fails because both directions run
`optimizeCommands`, which can rewrite the command list — see the
counterexample.) -/
theorem C6_flip_roundtrip (p : RPath)
    (hml : ∀ c ∈ p.commands, mlzCmd c) (hint : ∀ c ∈ p.commands, intCmd c)
    (hz : noConsecZ p.commands)
    (hhead : p.commands = [] ∨ ∃ x y rest, p.commands = Cmd.m x y :: rest)
    (hfix : optimizeCommands p.commands = p.commands) :
    fromSVGCommands defaultParseOpts (toPathData p defaultOutOpts) =
      Except.ok p.commands :=
  roundTrip_mlz_int p hml hint hz hhead hfix

/-- C6, witness: the round trip at the concrete closed path
`M0 0 L10 0 Z` (a fixed point of `optimizeCommands`). -/
theorem C6_flip_roundtrip_witness :
    fromSVGCommands defaultParseOpts
        (toPathData (RPath.new.withCommands [Cmd.m 0 0, Cmd.l 10 0, Cmd.z])
          defaultOutOpts) =
      Except.ok [Cmd.m 0 0, Cmd.l 10 0, Cmd.z] :=
  C6_flip_roundtrip (RPath.new.withCommands [Cmd.m 0 0, Cmd.l 10 0, Cmd.z])
    (by
      intro c hc
      have hc' : c ∈ [Cmd.m 0 0, Cmd.l 10 0, Cmd.z] := hc
      fin_cases hc' <;> simp [mlzCmd])
    (by
      intro c hc
      have hc' : c ∈ [Cmd.m 0 0, Cmd.l 10 0, Cmd.z] := hc
      fin_cases hc'
      · exact ⟨⟨0, by norm_num⟩, ⟨0, by norm_num⟩⟩
      · exact ⟨⟨10, by norm_num⟩, ⟨0, by norm_num⟩⟩
      · trivial)
    (by
      show noConsecZ [Cmd.m 0 0, Cmd.l 10 0, Cmd.z]
      simp [noConsecZ])
    (Or.inr ⟨0, 0, [Cmd.l 10 0, Cmd.z],
      show (RPath.new.withCommands [Cmd.m 0 0, Cmd.l 10 0, Cmd.z]).commands =
        Cmd.m 0 0 :: [Cmd.l 10 0, Cmd.z] from rfl⟩)
    (by norm_num [optimizeCommands, optLoop, optZGuard, Cmd.endX, Cmd.endY, Cmd.setTypeM, Option.some_ne_none, RPath.new, RPath.withCommands, RPath.commands])

/-- C6, counterexample to the unconditional claim: on the closed triangle
`M0 0 L100 0 L100 100 L0 0 Z` the serializer's default `optimize: true` pass
rewrites the subpath (the final `L` lands on the `M`, so the `L0 0` is dropped
and the subpath head becomes `M100 0`), and the parse of the serialized output
returns that four-command list — the round trip loses a command, which no
decimal-rounding tolerance explains. -/
theorem C6_counterexample :
    fromSVGCommands defaultParseOpts
        (toPathData (RPath.new.withCommands
          [Cmd.m 0 0, Cmd.l 100 0, Cmd.l 100 100, Cmd.l 0 0, Cmd.z])
          defaultOutOpts) =
      Except.ok [Cmd.m 100 0, Cmd.l 100 100, Cmd.l 0 0, Cmd.z] ∧
    ([Cmd.m 100 0, Cmd.l 100 100, Cmd.l 0 0, Cmd.z] : List Cmd).length ≠
      ([Cmd.m 0 0, Cmd.l 100 0, Cmd.l 100 100, Cmd.l 0 0, Cmd.z] : List Cmd).length := by
  have hopt_tri : optimizeCommands [Cmd.m 0 0, Cmd.l 100 0, Cmd.l 100 100, Cmd.l 0 0, Cmd.z] =
      [Cmd.m 100 0, Cmd.l 100 100, Cmd.l 0 0, Cmd.z] := by
    norm_num [optimizeCommands, optLoop, optZGuard, Cmd.endX, Cmd.endY, Cmd.setTypeM,
      Option.some_ne_none]
  have hfix4 : optimizeCommands [Cmd.m 100 0, Cmd.l 100 100, Cmd.l 0 0, Cmd.z] =
      [Cmd.m 100 0, Cmd.l 100 100, Cmd.l 0 0, Cmd.z] := by
    norm_num [optimizeCommands, optLoop, optZGuard, Cmd.endX, Cmd.endY, Cmd.setTypeM,
      Option.some_ne_none]
  constructor
  · have h1 : toPathData (RPath.new.withCommands
        [Cmd.m 0 0, Cmd.l 100 0, Cmd.l 100 100, Cmd.l 0 0, Cmd.z]) defaultOutOpts =
        toPathData (RPath.new.withCommands
          [Cmd.m 100 0, Cmd.l 100 100, Cmd.l 0 0, Cmd.z]) defaultOutOpts := by
      show serializeTail
          (optimizeCommands [Cmd.m 0 0, Cmd.l 100 0, Cmd.l 100 100, Cmd.l 0 0, Cmd.z])
          defaultOutOpts =
        serializeTail (optimizeCommands [Cmd.m 100 0, Cmd.l 100 100, Cmd.l 0 0, Cmd.z])
          defaultOutOpts
      rw [hopt_tri, hfix4]
    rw [h1]
    exact roundTrip_mlz_int
      (RPath.new.withCommands [Cmd.m 100 0, Cmd.l 100 100, Cmd.l 0 0, Cmd.z])
      (by
        intro c hc
        have hc' : c ∈ [Cmd.m 100 0, Cmd.l 100 100, Cmd.l 0 0, Cmd.z] := hc
        fin_cases hc' <;> simp [mlzCmd])
      (by
        intro c hc
        have hc' : c ∈ [Cmd.m 100 0, Cmd.l 100 100, Cmd.l 0 0, Cmd.z] := hc
        fin_cases hc'
        · exact ⟨⟨100, by norm_num⟩, ⟨0, by norm_num⟩⟩
        · exact ⟨⟨100, by norm_num⟩, ⟨100, by norm_num⟩⟩
        · exact ⟨⟨0, by norm_num⟩, ⟨0, by norm_num⟩⟩
        · trivial)
      (by
        show noConsecZ [Cmd.m 100 0, Cmd.l 100 100, Cmd.l 0 0, Cmd.z]
        simp [noConsecZ])
      (Or.inr ⟨100, 0, [Cmd.l 100 100, Cmd.l 0 0, Cmd.z],
        show (RPath.new.withCommands
            [Cmd.m 100 0, Cmd.l 100 100, Cmd.l 0 0, Cmd.z]).commands =
          Cmd.m 100 0 :: [Cmd.l 100 100, Cmd.l 0 0, Cmd.z] from rfl⟩)
      hfix4
  · simp

/-- C10, witness: the frame property at a concrete two-command heap. -/
theorem C10_toPathData_frame_witness :
    ([0, 1] : List ℕ).map (fun r =>
      (toPathDataH [Cmd.m 1 2, Cmd.z]
        ⟨[0, 1], some "black", none, 1, none⟩ defaultOutOpts).1.getD r Cmd.z) =
    ([0, 1] : List ℕ).map (fun r => ([Cmd.m 1 2, Cmd.z] : List Cmd).getD r Cmd.z) := by
  refine C10_toPathData_frame [Cmd.m 1 2, Cmd.z] ⟨[0, 1], some "black", none, 1, none⟩
    defaultOutOpts ?_
  intro r hr
  simp only [List.mem_cons, List.not_mem_nil, or_false] at hr
  rcases hr with h | h <;> simp [h]

end OT

